import Mathlib

/-!
Verification of the position-tracking dashboard (hipas).

This file gives a shallow embedding, in Lean, of the core logic of the
repository: the price cache (`fetchCurrentPrices` in
`src/components/PositionTable.tsx` and its identical copy in the large
component variant), the persistence accessors (`src/lib/database.ts`:
`getTrackedPositions`, `upsertTrackedPosition`, `closeTrackedPosition`),
the reconcile cycle (`fetchPositions` in the large component variant,
which imports the accessors from `src/lib/database.ts`), and the display
deduplication/filtering (`getFilteredPositions`).

Conventions of the embedding:
* JavaScript numbers are modelled as `ℚ` (all the arithmetic the claims
  mention is exact on the inputs considered); timestamps (`Date.now()`,
  ISO date columns) are modelled as milliseconds-since-epoch.
* Nullable columns are `Option` fields; JavaScript truthiness of a string
  is `≠ ""` on `some` values, of a number is `≠ 0`.
* `async` functions are modelled as pure state transformers on an explicit
  database value; network outcomes are explicit parameters.
* The `alias` column/field of the source is spelled `aliasName` here
  (`alias` is reserved in Lean); every other name follows the source.
-/

/-! ## Price cache (`fetchCurrentPrices`)

The component keeps one `Map<string, number>` whose entries are asset
prices plus a sentinel entry under the key `"_timestamp"` holding the
time the cache was filled.  We model the JS `Map` as an association list
with unique keys, insertion ordered. -/

/-- A JS `Map<string, number>`: association list, unique keys, insertion
order preserved. `set` replaces in place or appends. -/
structure PriceMap where
  entries : List (String × ℚ)
deriving DecidableEq

/-- `Map.get`: first entry with the key. -/
def PriceMap.get (m : PriceMap) (k : String) : Option ℚ :=
  (m.entries.find? (fun e => e.1 == k)).map (·.2)

/-- `Map.size`. -/
def PriceMap.size (m : PriceMap) : Nat :=
  m.entries.length

/-- `Map.set`: replace the entry if the key is present, else append. -/
def PriceMap.set (m : PriceMap) (k : String) (v : ℚ) : PriceMap :=
  if m.entries.any (fun e => e.1 == k) then
    ⟨m.entries.map (fun e => if e.1 == k then (k, v) else e)⟩
  else
    ⟨m.entries ++ [(k, v)]⟩

/-- The empty map (`new Map()`). -/
def PriceMap.empty : PriceMap := ⟨[]⟩

/-- Outcome of the single batched `allMids` request: a 2xx response
carrying the asset-to-price body, a non-2xx response (`response.ok`
false, no exception), or a thrown network error (rejected promise). -/
inductive MidsOutcome where
  | ok (data : List (String × ℚ))
  | httpError
  | networkError
deriving DecidableEq

/-- Truthiness guard `if (data[asset])` followed by
`priceMap.set(asset, parseFloat(data[asset]))`: the response body maps
assets to non-empty strings, so presence in the association list is the
truthy case (the string "0" is truthy and parses to 0). -/
def fillPrices (assets : List String) (data : List (String × ℚ)) : PriceMap :=
  assets.foldl
    (fun priceMap asset =>
      match data.lookup asset with
      | some v => priceMap.set asset v
      | none => priceMap)
    PriceMap.empty

/-- Cache age: `Date.now() - (priceCache.get("_timestamp") || 0)` (a
stored timestamp of `0` is falsy in JS, but `|| 0` then yields `0` all
the same, so `getD 0` is exact). -/
def cacheAge (priceCache : PriceMap) (now : ℚ) : ℚ :=
  now - (priceCache.get "_timestamp").getD 0

/-- `fetchCurrentPrices` from `src/components/PositionTable.tsx`
(lines 102–147; the identical function also appears in the large
component variant).  Returns the price map the caller will use (and
store via `setPriceCache`), paired with whether a network request was
issued. -/
def fetchCurrentPrices (priceCache : PriceMap) (now : ℚ) (assets : List String)
    (outcome : MidsOutcome) : PriceMap × Bool :=
  if cacheAge priceCache now < 30000 ∧ 1 < priceCache.size then
    (⟨priceCache.entries⟩, false)
  else
    match outcome with
    | .ok data => ((fillPrices assets data).set "_timestamp" now, true)
    | .httpError => (PriceMap.empty, true)
    | .networkError =>
        if 1 < priceCache.size then (⟨priceCache.entries⟩, true)
        else (PriceMap.empty, true)

/-! ## Persisted data model (`src/lib/supabaseClient.ts` row shapes) -/

/-- A `tracked_positions` row.  Timestamp columns are milliseconds since
epoch; nullable columns are `Option`. -/
structure TrackedPosition where
  position_key : Option String
  address : String
  asset : String
  side : String
  size : ℚ
  entry_price : ℚ
  leverage : ℚ
  status : String
  is_active : Option Bool
  created_at : Option Int
  closed_at : Option Int
  final_pnl : Option ℚ
  holding_duration_minutes : Option Int
  last_updated : Option Int
deriving DecidableEq

/-- A `position_history` row (append-only). -/
structure PositionHistory where
  address : String
  asset : String
  size : ℚ
  entry_price : ℚ
  exit_price : ℚ
  side : String
  leverage : ℚ
  pnl : ℚ
  pnl_percentage : ℚ
  holding_duration_minutes : Int
  opened_at : Int
  closed_at : Int
  status : String
  position_key : String
deriving DecidableEq

/-- A `wallet_addresses` row (only the columns the claims touch). -/
structure WalletRow where
  address : String
  aliasName : Option String
  notifications_enabled : Option Bool
deriving DecidableEq

/-- The slice of the store the reconcile cycle reads and writes. -/
structure Db where
  tracked_positions : List TrackedPosition
  position_history : List PositionHistory
  wallet_addresses : List WalletRow
deriving DecidableEq

/-! ## Store accessors (`src/lib/database.ts`) -/

/-- `getTrackedPositions()` with no status argument (database.ts lines
123–145): rows with `(status = active or status = new) and (is_active =
true or is_active is null)`.  The `order by created_at desc` only
permutes the result; we keep table order, which no claim depends on. -/
def getTrackedPositions (db : Db) : List TrackedPosition :=
  db.tracked_positions.filter (fun p =>
    (p.status == "active" || p.status == "new") &&
    (p.is_active == some true || p.is_active == none))

/-- The payload `fetchPositions` queues for `upsertTrackedPosition`
(part_001 lines 1580–1591). -/
structure PositionUpdate where
  address : String
  asset : String
  size : ℚ
  entry_price : ℚ
  side : String
  leverage : ℚ
  is_active : Bool
  position_key : String
  status : String
deriving DecidableEq

/-- One `sendPositionNotification(address, asset, side, size, entryPrice,
alias)` invocation. -/
structure NotifEvent where
  address : String
  asset : String
  side : String
  size : ℚ
  entry_price : ℚ
  aliasName : Option String
deriving DecidableEq

/-- The guard `walletInfo?.notifications_enabled !== false` (database.ts
line 301): a missing row or a null column compares unequal to `false`,
so only an explicit `false` suppresses the email. -/
def notifDecision : Option WalletRow → Bool
  | none => true
  | some w => w.notifications_enabled != some false

/-- `upsertTrackedPosition` (database.ts lines 197–412), as a state
transformer.  Returns the new store, the `sendPositionNotification`
invocations made by its new-position branch, and the upserted row.
`emailOk` is the transport outcome of one `sendPositionNotification`
call (its value is the same for every call of the cycle): on `true` the
retry loop stops after one attempt, on `false` it makes `maxAttempts =
3` attempts.  The trailing failure is logged to `notification_logs`,
which no claim reads, so the log table is not modelled. -/
def upsertTrackedPosition (emailOk : Bool) (now : Int) (db : Db)
    (position : PositionUpdate) : Db × List NotifEvent × Option TrackedPosition :=
  let existingPosition :=
    db.tracked_positions.find? (fun p => p.position_key == some position.position_key)
  let isNewPosition := existingPosition.isNone
  let row : TrackedPosition :=
    { position_key := some position.position_key
      address := position.address
      asset := position.asset
      side := position.side
      size := position.size
      entry_price := position.entry_price
      leverage := position.leverage
      status := if position.status == "" then "active" else position.status
      is_active := some (position.status != "closed")
      created_at := match existingPosition with
                    | some e => e.created_at
                    | none => some now
      closed_at := match existingPosition with
                   | some e => e.closed_at
                   | none => none
      final_pnl := match existingPosition with
                   | some e => e.final_pnl
                   | none => none
      holding_duration_minutes := match existingPosition with
                                  | some e => e.holding_duration_minutes
                                  | none => none
      last_updated := some now }
  let newTracked :=
    if isNewPosition then db.tracked_positions ++ [row]
    else db.tracked_positions.map
      (fun p => if p.position_key == some position.position_key then row else p)
  let walletInfo := db.wallet_addresses.find? (fun w => w.address == position.address)
  let events : List NotifEvent :=
    if isNewPosition then
      if notifDecision walletInfo then
        let evt : NotifEvent :=
          { address := row.address, asset := row.asset, side := row.side
            size := row.size, entry_price := row.entry_price
            aliasName := walletInfo.bind (·.aliasName) }
        if emailOk then [evt] else [evt, evt, evt]
      else []
    else []
  ({ db with tracked_positions := newTracked }, events, some row)

/-- The `position_history` row `closeTrackedPosition` inserts for the
existing row it found (database.ts lines 458–478), given the `finalPnl`
and `exitPrice` arguments. -/
def closeHistoryRow (now : Int) (positionKey : String) (finalPnl exitPrice : ℚ)
    (existingPosition : TrackedPosition) : PositionHistory :=
  let createdAt := existingPosition.created_at.getD now
  { address := existingPosition.address
    asset := existingPosition.asset
    size := existingPosition.size
    entry_price := existingPosition.entry_price
    exit_price := exitPrice
    side := existingPosition.side
    leverage := existingPosition.leverage
    pnl := finalPnl
    pnl_percentage :=
      if 0 < existingPosition.entry_price then
        finalPnl / (|existingPosition.size| * existingPosition.entry_price) * 100
      else 0
    holding_duration_minutes := Int.fdiv (now - createdAt) 60000
    opened_at := createdAt
    closed_at := now
    status := "closed"
    position_key := positionKey }

/-- The column set `closeTrackedPosition` writes to the matching row
(database.ts lines 438–447). -/
def closeRowUpdate (now : Int) (finalPnl : ℚ) (holdingDurationMinutes : Int)
    (p : TrackedPosition) : TrackedPosition :=
  { p with status := "closed", closed_at := some now
           final_pnl := some finalPnl
           holding_duration_minutes := some holdingDurationMinutes
           is_active := some false, last_updated := some now }

/-- `closeTrackedPosition(positionKey, finalPnl, exitPrice)` (database.ts
lines 414–481).  Looks the row up; a missing row returns `null` and
performs no write; otherwise flips the row to closed and appends one
`position_history` row built from the found row. -/
def closeTrackedPosition (now : Int) (db : Db) (positionKey : String)
    (finalPnl exitPrice : ℚ) : Db × Option TrackedPosition :=
  match db.tracked_positions.find? (fun p => p.position_key == some positionKey) with
  | none => (db, none)
  | some existingPosition =>
    let createdAt := existingPosition.created_at.getD now
    let holdingDurationMinutes := Int.fdiv (now - createdAt) 60000
    let newTracked := db.tracked_positions.map
      (fun p => if p.position_key == some positionKey
                then closeRowUpdate now finalPnl holdingDurationMinutes p else p)
    let hist := closeHistoryRow now positionKey finalPnl exitPrice existingPosition
    ({ db with tracked_positions := newTracked
               position_history := db.position_history ++ [hist] },
     some (closeRowUpdate now finalPnl holdingDurationMinutes existingPosition))

/-! ## The reconcile cycle (`fetchPositions`, part_001 lines 1440–1803)

The cycle loads the previously tracked (active/new) rows, walks every
address's `clearinghouseState` response, classifies each nonzero-size
raw position, queues one store upsert per observed position and one
direct notification per enabled-address new position, then — after the
complete fresh key set is known — closes every previously tracked row
whose key the snapshot no longer contains.  Batching (size 3) and the
100 ms inter-batch delay only schedule the same per-address work, so the
model walks the addresses in order. -/

/-- One raw position of a `clearinghouseState` response, after the
`parseFloat` conversions (part_001 lines 1525–1539). -/
structure RawPosition where
  coin : String
  szi : ℚ
  entryPx : ℚ
  unrealizedPnl : ℚ
  liquidationPx : ℚ
  leverage : ℚ
deriving DecidableEq

/-- A tracked address as handed to the component (the `addresses` prop). -/
structure AddressObj where
  address : String
  aliasName : Option String
  color : Option String
  notifications_enabled : Option Bool
deriving DecidableEq

/-- One address's fetch result in a cycle: `none` models a non-2xx
response or a thrown network error (the address is skipped and
contributes zero positions), `some l` the parsed `assetPositions`. -/
structure AddressFetch where
  addressObj : AddressObj
  result : Option (List RawPosition)
deriving DecidableEq

/-- `positionKey` derivation: `` `${address}-${asset}` ``. -/
def positionKey (address asset : String) : String :=
  address ++ "-" ++ asset

/-- Status classification of one observed position (part_001 lines
1548–1578): no row in the previously tracked list means `new`; a row
with status `new` stays `new` while `createdAt > now − 24h` (an unset
`created_at` parses to an invalid date, whose comparison is false);
any other row means `active`. -/
def classifyStatus (now : Int) (previouslyTracked : List TrackedPosition)
    (key : String) : String :=
  match previouslyTracked.find? (fun p => p.position_key == some key) with
  | none => "new"
  | some existingPosition =>
    if existingPosition.status == "new" then
      match existingPosition.created_at with
      | some createdAt => if now - 86400000 < createdAt then "new" else "active"
      | none => "active"
    else "active"

/-- Whether the observed position has no row in the previously tracked
list (the `!existingPosition` branch of part_001 line 1554). -/
def isUntracked (previouslyTracked : List TrackedPosition) (key : String) : Bool :=
  (previouslyTracked.find? (fun p => p.position_key == some key)).isNone

/-- `const side = size > 0 ? "LONG" : "SHORT"` (part_001 line 1538). -/
def sideOf (szi : ℚ) : String :=
  if szi > 0 then "LONG" else "SHORT"

/-- Per-address gathering pass of the cycle: the fresh keys, the queued
`positionUpdates`, and the queued `newPositionNotifications` (one per
untracked position when `addressObj.notifications_enabled ?? true`)
contributed by one address (part_001 lines 1519–1618). -/
def processAddress (now : Int) (previouslyTracked : List TrackedPosition)
    (af : AddressFetch) : List String × List PositionUpdate × List NotifEvent :=
  match af.result with
  | none => ([], [], [])
  | some assetPositions =>
    let openPositions := assetPositions.filter (fun p => p.szi != 0)
    let keyOf := fun (p : RawPosition) => positionKey af.addressObj.address p.coin
    ( openPositions.map keyOf,
      openPositions.map (fun p =>
        { address := af.addressObj.address
          asset := p.coin
          size := p.szi
          entry_price := p.entryPx
          side := sideOf p.szi
          leverage := p.leverage
          is_active := true
          position_key := keyOf p
          status := classifyStatus now previouslyTracked (keyOf p) }),
      (openPositions.filter (fun p =>
          isUntracked previouslyTracked (keyOf p) &&
          af.addressObj.notifications_enabled.getD true)).map (fun p =>
        { address := af.addressObj.address
          asset := p.coin
          side := sideOf p.szi
          size := p.szi
          entry_price := p.entryPx
          aliasName := af.addressObj.aliasName }) )

/-- The whole gathering pass: concatenation of the per-address results,
in address order. -/
def gatherSnapshots (now : Int) (previouslyTracked : List TrackedPosition) :
    List AddressFetch → List String × List PositionUpdate × List NotifEvent
  | [] => ([], [], [])
  | af :: rest =>
    let h := processAddress now previouslyTracked af
    let t := gatherSnapshots now previouslyTracked rest
    (h.1 ++ t.1, h.2.1 ++ t.2.1, h.2.2 ++ t.2.2)

/-- The background write fan-out `positionUpdates.map(upsertTrackedPosition)`
(part_001 line 1659), threaded sequentially: each per-key upsert is
independent, so the interleaving does not affect the final store. -/
def runUpserts (emailOk : Bool) (now : Int) : Db → List PositionUpdate →
    Db × List NotifEvent
  | db, [] => (db, [])
  | db, u :: rest =>
    let r := upsertTrackedPosition emailOk now db u
    let t := runUpserts emailOk now r.1 rest
    (t.1, r.2.1 ++ t.2)

/-- The closable filter (part_001 lines 1684–1691): a truthy (non-null,
non-empty) `position_key`, absent from the fresh key set, status active
or new, and `is_active` true or null. -/
def positionsToClose (previouslyTracked : List TrackedPosition)
    (currentPositionKeys : List String) : List TrackedPosition :=
  previouslyTracked.filter (fun trackedPos =>
    match trackedPos.position_key with
    | none => false
    | some k =>
      k != "" &&
      !(currentPositionKeys.contains k) &&
      (trackedPos.status == "active" || trackedPos.status == "new") &&
      (trackedPos.is_active == some true || trackedPos.is_active == none))

/-- `currentPrices.get(asset) || fallback`: a missing price — and a
price of `0`, which is falsy — falls back (part_001 lines 1703–1704). -/
def priceOr (currentPrices : List (String × ℚ)) (asset : String)
    (fallback : ℚ) : ℚ :=
  match currentPrices.lookup asset with
  | some v => if v == 0 then fallback else v
  | none => fallback

/-- The close fan-out (part_001 lines 1699–1713): for each closable row,
`finalPnl = (currentPrice − entry_price) × size` with the falsy-fallback
price, then `closeTrackedPosition`. -/
def closePositions (now : Int) (currentPrices : List (String × ℚ)) :
    Db → List TrackedPosition → Db
  | db, [] => db
  | db, trackedPos :: rest =>
    closePositions now currentPrices
      (match trackedPos.position_key with
       | none => db
       | some k =>
         if k == "" then db
         else
           let currentPrice := priceOr currentPrices trackedPos.asset trackedPos.entry_price
           let finalPnl := (currentPrice - trackedPos.entry_price) * trackedPos.size
           (closeTrackedPosition now db k finalPnl currentPrice).1)
      rest

/-- Everything one reconcile cycle produces that the claims talk about. -/
structure CycleResult where
  db : Db
  attempts : List NotifEvent
  currentPositionKeys : List String
  positionUpdates : List PositionUpdate
  closedPositions : List TrackedPosition
deriving DecidableEq

/-- One reconcile cycle (`fetchPositions`, part_001 lines 1440–1803).
`currentPrices` is the map `fetchCurrentPrices` returned for this cycle
(without its `"_timestamp"` sentinel, which is never an asset name).
`attempts` collects every `sendPositionNotification` invocation: one per
queued `newPositionNotifications` entry (part_001 lines 1643–1657, no
retry there) plus the ones made inside `upsertTrackedPosition`.  An
empty address list returns before doing anything (part_001 line 1443). -/
def fetchPositions (emailOk : Bool) (now : Int)
    (currentPrices : List (String × ℚ)) (db : Db)
    (inputs : List AddressFetch) : CycleResult :=
  if inputs.isEmpty then
    { db := db, attempts := [], currentPositionKeys := []
      positionUpdates := [], closedPositions := [] }
  else
    let previouslyTracked := getTrackedPositions db
    let g := gatherSnapshots now previouslyTracked inputs
    let currentKeys := g.1
    let updates := g.2.1
    let queued := g.2.2
    let u := runUpserts emailOk now db updates
    let toClose := positionsToClose previouslyTracked currentKeys
    let db2 := closePositions now currentPrices u.1 toClose
    { db := db2
      attempts := queued ++ u.2
      currentPositionKeys := currentKeys
      positionUpdates := updates
      closedPositions := toClose }

/-! ## Display aggregator (`getFilteredPositions`, part_001 lines 1919–2010) -/

/-- The display view-model (the component's `Position` interface). -/
structure Position where
  asset : String
  size : ℚ
  entryPrice : ℚ
  pnl : ℚ
  pnlPercentage : ℚ
  liquidationPrice : ℚ
  address : String
  aliasName : Option String
  color : Option String
  openTime : Option Int
  leverage : ℚ
  side : String
  sizeUSD : ℚ
  currentPrice : ℚ
  positionKey : String
deriving DecidableEq

/-- `trackedPositions.find(...)?.status || "active"` (part_001 lines
1935–1944): the status the deduplication attributes to a position key. -/
def statusLookup (trackedPositions : List TrackedPosition) (key : String) : String :=
  match trackedPositions.find? (fun tp => tp.position_key == some key) with
  | none => "active"
  | some tp => if tp.status == "" then "active" else tp.status

/-- Duplicate resolution (part_001 lines 1932–1957): keep the incumbent
unless the incoming entry wins by the status rules or, at equal status,
by having a nonzero `currentPrice` against a zero one.  (Both lookups
use the same `positionKey`, the one the two entries share.) -/
def resolveDup (trackedPositions : List TrackedPosition)
    (existing position : Position) : Position :=
  let existingStatus := statusLookup trackedPositions existing.positionKey
  let currentStatus := statusLookup trackedPositions position.positionKey
  if currentStatus == "active" && existingStatus != "active" then position
  else if currentStatus == "new" && existingStatus == "closed" then position
  else if currentStatus == existingStatus &&
          position.currentPrice > 0 && existing.currentPrice == 0 then position
  else existing

/-- One step of the `reduce`: find the first accumulator entry with the
same `positionKey`; replace it per `resolveDup`, else push at the end. -/
def insertPosition (trackedPositions : List TrackedPosition)
    (position : Position) : List Position → List Position
  | [] => [position]
  | p :: rest =>
    if p.positionKey == position.positionKey then
      resolveDup trackedPositions p position :: rest
    else p :: insertPosition trackedPositions position rest

/-- The deduplication pass (`positionsList.reduce(...)`, part_001 lines
1925–1960). -/
def uniquePositions (trackedPositions : List TrackedPosition)
    (positionsList : List Position) : List Position :=
  positionsList.foldl (fun acc position => insertPosition trackedPositions position acc) []

/-- `Char.toLower` over a string (`.toLowerCase()`). -/
def strLower (s : String) : String :=
  s.map Char.toLower

/-- Whether `pat` occurs as a contiguous run at the front of `hay`. -/
def listStartsWith : List Char → List Char → Bool
  | _, [] => true
  | [], _ :: _ => false
  | a :: as, b :: bs => a == b && listStartsWith as bs

/-- JS `String.prototype.includes`: `pat` occurs contiguously in `hay`. -/
def listIncludes : List Char → List Char → Bool
  | [], pat => pat.isEmpty
  | a :: as, pat => listStartsWith (a :: as) pat || listIncludes as pat

/-- `hay.includes(pat)` on strings. -/
def strIncludes (hay pat : String) : Bool :=
  listIncludes hay.data pat.data

/-- The filter state of the component that `getFilteredPositions`
closes over. -/
structure DisplayCtx where
  trackedPositions : List TrackedPosition
  hiddenPositions : List String
  selectedCrypto : String
  cryptoFilter : String
  selectedTrader : String
  traderFilter : String
deriving DecidableEq

/-- The hidden-status gate (part_001 lines 1963–1977): the All tab
(`showAllPositions`) skips it entirely; the Hidden tab keeps only hidden
keys; every other tab drops hidden keys. -/
def passesHiddenRule (ctx : DisplayCtx) (includeHidden showAllPositions : Bool)
    (position : Position) : Bool :=
  let isHidden := ctx.hiddenPositions.contains position.positionKey
  if showAllPositions then true
  else if includeHidden then isHidden
  else !isHidden

/-- The crypto and trader filters (part_001 lines 1979–2008), as the
conjunction of the negated early returns.  String truthiness (`""` is
falsy) guards `cryptoFilter`, `traderFilter` and `position.alias`. -/
def passesTextFilters (ctx : DisplayCtx) (position : Position) : Bool :=
  !(ctx.selectedCrypto != "all" && position.asset != ctx.selectedCrypto) &&
  !(ctx.cryptoFilter != "" &&
      !(strIncludes (strLower position.asset) (strLower ctx.cryptoFilter))) &&
  !(ctx.selectedTrader != "all" &&
      !(position.address == ctx.selectedTrader) &&
      !((match position.aliasName with
         | some a => a != "" && a == ctx.selectedTrader
         | none => false) : Bool)) &&
  !(ctx.traderFilter != "" &&
      !(strIncludes (strLower position.address) (strLower ctx.traderFilter)) &&
      !(strIncludes (strLower ((position.aliasName).getD ""))
          (strLower ctx.traderFilter)))

/-- `getFilteredPositions(positionsList, includeHidden, showAllPositions)`
(part_001 lines 1919–2010): deduplicate, then filter. -/
def getFilteredPositions (ctx : DisplayCtx) (positionsList : List Position)
    (includeHidden showAllPositions : Bool) : List Position :=
  (uniquePositions ctx.trackedPositions positionsList).filter
    (fun position =>
      passesHiddenRule ctx includeHidden showAllPositions position &&
      passesTextFilters ctx position)

/-! ## List helpers

Small facts about `find?`, keyed replacement and keyed lookup used by
the claim proofs below. -/

/-- `find?` over a keyed in-place update: the found row, updated. -/
theorem find?_update (g : TrackedPosition → TrackedPosition) (l : List TrackedPosition)
    (k k' : String) (hg : ∀ p : TrackedPosition, p.position_key = some k →
      (g p).position_key = some k) :
    (l.map (fun p => if p.position_key == some k then g p else p)).find?
        (fun p => p.position_key == some k')
      = (l.find? (fun p => p.position_key == some k')).map
          (fun p => if p.position_key == some k then g p else p) := by
  induction l with
  | nil => rfl
  | cons a rest ih =>
    have hPF : ((if a.position_key == some k then g a else a).position_key == some k')
        = (a.position_key == some k') := by
      by_cases ha : a.position_key = some k
      · rw [if_pos (by simp [ha]), hg a ha, ha]
      · rw [if_neg (by simp [ha])]
    cases hpa : (a.position_key == some k') with
    | true =>
      simp only [List.map_cons, List.find?_cons, hPF, hpa]
      rfl
    | false =>
      simp only [List.map_cons, List.find?_cons, hPF, hpa]
      exact ih

/-- `find?` over an append of a single row. -/
theorem find?_append_single (l : List TrackedPosition) (row : TrackedPosition)
    (k' : String) :
    (l ++ [row]).find? (fun p => p.position_key == some k')
      = match l.find? (fun p => p.position_key == some k') with
        | some x => some x
        | none => if row.position_key == some k' then some row else none := by
  induction l with
  | nil =>
    simp only [List.nil_append, List.find?_nil, List.find?_cons]
    cases hr : (row.position_key == some k') <;> simp [hr]
  | cons a rest ih =>
    cases ha : (a.position_key == some k') with
    | true => simp only [List.cons_append, List.find?_cons, ha]
    | false =>
      simp only [List.cons_append, List.find?_cons, ha]
      exact ih

/-- With pairwise-distinct keys, `find?` by a member's key returns that
member. -/
theorem find?_of_mem_nodupKeys (l : List TrackedPosition) (tp : TrackedPosition)
    (k : String) (h1 : tp ∈ l) (h2 : tp.position_key = some k)
    (hnd : (l.filterMap (·.position_key)).Nodup) :
    l.find? (fun p => p.position_key == some k) = some tp := by
  induction l with
  | nil => cases h1
  | cons a rest ih =>
    rcases List.mem_cons.mp h1 with rfl | hmem
    · simp [List.find?_cons, h2]
    · by_cases ha : a.position_key = some k
      · exfalso
        rw [List.filterMap_cons, ha] at hnd
        have : k ∈ rest.filterMap (·.position_key) :=
          List.mem_filterMap.mpr ⟨tp, hmem, h2⟩
        exact (List.nodup_cons.mp hnd).1 this
      · have hrest : (rest.filterMap (·.position_key)).Nodup := by
          rw [List.filterMap_cons] at hnd
          cases hak : a.position_key with
          | none => rwa [hak] at hnd
          | some k'' => rw [hak] at hnd; exact (List.nodup_cons.mp hnd).2
      
        have ha' : (a.position_key == some k) = false := by simp [ha]
        simp only [List.find?_cons, ha']
        exact ih hmem hrest

/-- Number of `sendPositionNotification` invocations carrying the given
address and asset. -/
def countAttempts (events : List NotifEvent) (address asset : String) : Nat :=
  (events.filter (fun e => e.address == address && e.asset == asset)).length

/-! ## Claim C9 -/

/-- C9: calling `closeTrackedPosition` with a positionKey for which no
stored record exists returns null and leaves all state unchanged: no
tracked-position update is issued and no PositionHistory record is
appended. -/
theorem claim_C9 (now : Int) (db : Db) (positionKey : String) (finalPnl exitPrice : ℚ)
    (h : db.tracked_positions.find? (fun p => p.position_key == some positionKey) = none) :
    closeTrackedPosition now db positionKey finalPnl exitPrice = (db, none) := by
  unfold closeTrackedPosition
  rw [h]

/-- A store with one tracked row, used to instantiate several claims. -/
def exRowA : TrackedPosition :=
  { position_key := some "a-ETH", address := "a", asset := "ETH", side := "LONG"
    size := 2, entry_price := 100, leverage := 1, status := "active"
    is_active := some true, created_at := some 0, closed_at := none
    final_pnl := none, holding_duration_minutes := none, last_updated := some 0 }

/-- Example store: one active row under key `a-ETH`, no history, one
wallet row with notifications enabled. -/
def exDb : Db := ⟨[exRowA], [], [⟨"a", some "trader-a", some true⟩]⟩

theorem claim_C9_witness :
    exDb.tracked_positions.find? (fun p => p.position_key == some "b-BTC") = none ∧
    closeTrackedPosition 5 exDb "b-BTC" 7 9 = (exDb, none) :=
  ⟨by decide, claim_C9 5 exDb "b-BTC" 7 9 (by decide)⟩

/-! ## Claim C10 -/

/-- C10: when the wallet-settings lookup for a newly detected position's
address fails or returns no row, the upsert path still attempts the
new-position email: the notification is suppressed only when
`notifications_enabled` is explicitly false, so missing or unreadable
settings default to enabled. -/
theorem claim_C10 (emailOk : Bool) (now : Int) (db : Db) (position : PositionUpdate)
    (h : db.tracked_positions.find?
      (fun p => p.position_key == some position.position_key) = none) :
    ((db.wallet_addresses.find? (fun w => w.address == position.address)) = none →
      (upsertTrackedPosition emailOk now db position).2.1 ≠ []) ∧
    ((upsertTrackedPosition emailOk now db position).2.1 = [] ↔
      ∃ w, (db.wallet_addresses.find? (fun w => w.address == position.address)) = some w ∧
        w.notifications_enabled = some false) := by
  unfold upsertTrackedPosition
  rw [h]
  simp only [Option.isNone_none, if_pos trivial, ite_true]
  constructor
  · intro hw
    rw [hw]
    simp only [notifDecision, if_pos trivial, ite_true]
    cases emailOk <;> simp
  · cases hw : db.wallet_addresses.find? (fun w => w.address == position.address) with
    | none =>
      simp only [notifDecision, ite_true]
      constructor
      · intro hcontra
        cases emailOk <;> simp at hcontra
      · rintro ⟨w, hww, _⟩
        cases hww
    | some w =>
      simp only [notifDecision]
      by_cases hwf : w.notifications_enabled = some false
      · simp [hwf]
      · have hne : (w.notifications_enabled != some false) = true := by
          simp [hwf]
        simp only [hne, if_true]
        constructor
        · intro hcontra
          cases emailOk <;> simp at hcontra
        · rintro ⟨w', hww', hwf'⟩
          cases hww'
          exact absurd hwf' hwf

/-- A store with the same tracked row but no wallet rows at all, so the
wallet lookup returns no row. -/
def exDbNoWallet : Db := ⟨[exRowA], [], []⟩

/-- The upsert payload of a brand-new observation `b`/`BTC`. -/
def exUpdateB : PositionUpdate :=
  { address := "b", asset := "BTC", size := 1, entry_price := 50, side := "LONG"
    leverage := 2, is_active := true, position_key := "b-BTC", status := "new" }

theorem claim_C10_witness :
    (exDbNoWallet.tracked_positions.find?
      (fun p => p.position_key == some exUpdateB.position_key) = none) ∧
    ((exDbNoWallet.wallet_addresses.find?
        (fun w => w.address == exUpdateB.address)) = none →
      (upsertTrackedPosition true 3 exDbNoWallet exUpdateB).2.1 ≠ []) ∧
    ((upsertTrackedPosition true 3 exDbNoWallet exUpdateB).2.1 = [] ↔
      ∃ w, (exDbNoWallet.wallet_addresses.find?
        (fun w => w.address == exUpdateB.address)) = some w ∧
        w.notifications_enabled = some false) :=
  ⟨by decide, claim_C10 true 3 exDbNoWallet exUpdateB (by decide)⟩

/-! ## Claim C5 -/

/-- C5: if the cache's age is less than 30 seconds and the cache is
non-empty (more than the `"_timestamp"` sentinel), the cached map is
returned unchanged and no network request is issued; a later call after
the TTL has expired issues the one batched request and, on success,
returns a map rebuilt from scratch for the requested assets with a fresh
`"_timestamp"` — the caller stores that map, so the whole cache and its
timestamp turn over atomically. -/
theorem claim_C5 (priceCache : PriceMap) (now later : ℚ) (assets assets2 : List String)
    (outcome : MidsOutcome) (data : List (String × ℚ))
    (hfresh : cacheAge priceCache now < 30000) (hsize : 1 < priceCache.size)
    (hexpired : 30000 ≤ cacheAge priceCache later) :
    fetchCurrentPrices priceCache now assets outcome = (priceCache, false) ∧
    (fetchCurrentPrices priceCache later assets2 (.ok data)).2 = true ∧
    (fetchCurrentPrices priceCache later assets2 (.ok data)).1
      = (fillPrices assets2 data).set "_timestamp" later := by
  refine ⟨?_, ?_, ?_⟩
  · unfold fetchCurrentPrices
    rw [if_pos ⟨hfresh, hsize⟩]
  · unfold fetchCurrentPrices
    rw [if_neg (fun hc => absurd hc.1 (not_lt.mpr hexpired))]
  · unfold fetchCurrentPrices
    rw [if_neg (fun hc => absurd hc.1 (not_lt.mpr hexpired))]

/-- Example cache: one real price plus the timestamp sentinel, filled at
time 0. -/
def exCache : PriceMap := ⟨[("ETH", 100), ("_timestamp", 0)]⟩

theorem claim_C5_witness :
    (cacheAge exCache 10000 < 30000 ∧ 1 < exCache.size ∧
      30000 ≤ cacheAge exCache 40000) ∧
    fetchCurrentPrices exCache 10000 ["ETH"] .networkError = (exCache, false) ∧
    (fetchCurrentPrices exCache 40000 ["ETH"] (.ok [("ETH", 101)])).2 = true ∧
    (fetchCurrentPrices exCache 40000 ["ETH"] (.ok [("ETH", 101)])).1
      = (fillPrices ["ETH"] [("ETH", 101)]).set "_timestamp" 40000 := by
  have hget : (exCache.get "_timestamp").getD 0 = 0 := by decide
  have h1 : cacheAge exCache 10000 < 30000 := by
    unfold cacheAge
    rw [hget]
    norm_num
  have h2 : (1 : ℕ) < exCache.size := by decide
  have h3 : (30000 : ℚ) ≤ cacheAge exCache 40000 := by
    unfold cacheAge
    rw [hget]
    norm_num
  exact ⟨⟨h1, h2, h3⟩,
    claim_C5 exCache 10000 40000 ["ETH"] ["ETH"] .networkError [("ETH", 101)] h1 h2 h3⟩

/-! ## Claim C6 -/

/-- C6 counterexample: the cache holds a price and is stale; the batched
request comes back non-2xx (`response.ok` false, nothing thrown).  The
claim says the previous cached map is returned verbatim; the code skips
the `response.ok` block, never enters the catch, and returns the empty
`priceMap`. -/
theorem claim_C6_counterexample :
    (fetchCurrentPrices exCache 40000 ["ETH"] .httpError).2 = true ∧
    (fetchCurrentPrices exCache 40000 ["ETH"] .httpError).1 = PriceMap.empty ∧
    1 < exCache.size ∧ exCache ≠ PriceMap.empty := by
  have hget : (exCache.get "_timestamp").getD 0 = 0 := by decide
  have hexp : ¬(cacheAge exCache 40000 < 30000 ∧ 1 < exCache.size) := by
    intro hc
    have := hc.1
    unfold cacheAge at this
    rw [hget] at this
    norm_num at this
  refine ⟨?_, ?_, by decide, by decide⟩
  · unfold fetchCurrentPrices
    rw [if_neg hexp]
  · unfold fetchCurrentPrices
    rw [if_neg hexp]

/-- C6 amended: after the TTL gate falls through, a thrown network error
returns the previous cache verbatim when it is non-empty and the empty
map otherwise, while a non-2xx response returns the empty map regardless
of the cache; `fetchCurrentPrices` itself never writes the cache. -/
theorem claim_C6 (priceCache : PriceMap) (now : ℚ) (assets : List String)
    (h : ¬(cacheAge priceCache now < 30000 ∧ 1 < priceCache.size)) :
    (fetchCurrentPrices priceCache now assets .networkError).1
      = (if 1 < priceCache.size then priceCache else PriceMap.empty) ∧
    (fetchCurrentPrices priceCache now assets .httpError).1 = PriceMap.empty := by
  unfold fetchCurrentPrices
  rw [if_neg h, if_neg h]
  constructor
  · show (if 1 < priceCache.size then ((⟨priceCache.entries⟩ : PriceMap), true)
        else (PriceMap.empty, true)).1 = _
    split <;> rfl
  · rfl

theorem claim_C6_witness :
    (¬(cacheAge exCache 40000 < 30000 ∧ 1 < exCache.size)) ∧
    (fetchCurrentPrices exCache 40000 ["ETH"] .networkError).1
      = (if 1 < exCache.size then exCache else PriceMap.empty) ∧
    (fetchCurrentPrices exCache 40000 ["ETH"] .httpError).1 = PriceMap.empty := by
  have hget : (exCache.get "_timestamp").getD 0 = 0 := by decide
  have hexp : ¬(cacheAge exCache 40000 < 30000 ∧ 1 < exCache.size) := by
    intro hc
    have := hc.1
    unfold cacheAge at this
    rw [hget] at this
    norm_num at this
  exact ⟨hexp, claim_C6 exCache 40000 ["ETH"] hexp⟩

/-! ## Display lemmas and claims C4, C7 -/

/-- The two status-priority branches of `resolveDup` compare the status
of the *same* key (both entries of a duplicate pair share their
`positionKey`), so they can never fire: resolution degenerates to
keeping the incumbent unless the challenger has a nonzero current price
against a zero one. -/
theorem resolveDup_eq (tps : List TrackedPosition) (e p : Position)
    (hk : e.positionKey = p.positionKey) :
    resolveDup tps e p = if 0 < p.currentPrice ∧ e.currentPrice = 0 then p else e := by
  simp only [resolveDup]
  rw [hk]
  have c1 : ∀ s : String, (s == "active" && s != "active") = false := by
    intro s
    cases h : s == "active" <;> simp [bne, h]
  have c2 : ∀ s : String, (s == "new" && s == "closed") = false := by
    intro s
    by_cases h : s = "new"
    · subst h
      decide
    · simp [h]
  rw [c1, c2]
  simp only [Bool.false_eq_true, if_false]
  rw [beq_self_eq_true (statusLookup tps p.positionKey)]
  by_cases hp : 0 < p.currentPrice <;> by_cases he : e.currentPrice = 0 <;>
    simp [hp, he]

/-- Key of a resolved duplicate: unchanged. -/
theorem resolveDup_key (tps : List TrackedPosition) (e p : Position)
    (hk : e.positionKey = p.positionKey) :
    (resolveDup tps e p).positionKey = e.positionKey := by
  rw [resolveDup_eq tps e p hk]
  split <;> simp [hk]

/-- Keys after one insertion step of the deduplication. -/
theorem insertPosition_keys (tps : List TrackedPosition) (pos : Position) :
    ∀ acc : List Position,
      (insertPosition tps pos acc).map (·.positionKey)
        = if pos.positionKey ∈ acc.map (·.positionKey)
          then acc.map (·.positionKey)
          else acc.map (·.positionKey) ++ [pos.positionKey] := by
  intro acc
  induction acc with
  | nil => simp [insertPosition]
  | cons q rest ih =>
    by_cases hq : q.positionKey = pos.positionKey
    · rw [insertPosition, if_pos (by simp [hq])]
      simp [resolveDup_key tps q pos hq, hq]
    · rw [insertPosition, if_neg (by simp [hq])]
      by_cases hmem : pos.positionKey ∈ rest.map (·.positionKey)
      · simp only [List.map_cons, ih]
        rw [if_pos hmem, if_pos (List.mem_cons_of_mem _ hmem)]
      · have hne : pos.positionKey ∉ q.positionKey :: rest.map (·.positionKey) := by
          intro hcon
          rcases List.mem_cons.mp hcon with h | h
          · exact hq h.symm
          · exact hmem h
        rw [List.map_cons, ih, if_neg hmem, List.map_cons, if_neg hne,
          List.cons_append]

/-- Folding the deduplication keeps the accumulated keys duplicate-free
and accumulates exactly the input keys. -/
theorem uniquePositions_fold_keys (tps : List TrackedPosition) :
    ∀ (l : List Position) (acc : List Position),
      ((acc.map (·.positionKey)).Nodup →
        ((l.foldl (fun acc pos => insertPosition tps pos acc) acc).map
          (·.positionKey)).Nodup) ∧
      (∀ k, k ∈ (l.foldl (fun acc pos => insertPosition tps pos acc) acc).map
            (·.positionKey)
          ↔ k ∈ acc.map (·.positionKey) ∨ k ∈ l.map (·.positionKey)) := by
  intro l
  induction l with
  | nil => intro acc; simp
  | cons pos rest ih =>
    intro acc
    constructor
    · intro hnd
      refine ((ih (insertPosition tps pos acc)).1 ?_)
      rw [insertPosition_keys]
      by_cases hmem : pos.positionKey ∈ acc.map (·.positionKey)
      · rwa [if_pos hmem]
      · rw [if_neg hmem]
        simp [List.nodup_append, hnd, hmem]
    · intro k
      rw [List.foldl_cons, ((ih (insertPosition tps pos acc)).2 k),
          insertPosition_keys]
      by_cases hmem : pos.positionKey ∈ acc.map (·.positionKey)
      · rw [if_pos hmem]
        simp only [List.map_cons, List.mem_cons]
        constructor
        · rintro (h | h)
          · exact Or.inl h
          · exact Or.inr (Or.inr h)
        · rintro (h | rfl | h)
          · exact Or.inl h
          · exact Or.inl hmem
          · exact Or.inr h
      · rw [if_neg hmem]
        simp only [List.mem_append, List.mem_singleton, List.map_cons,
          List.mem_cons]
        tauto

/-- C4 amended: the deduplication yields exactly one entry per
positionKey (no key lost, none duplicated), but conflict resolution does
not see per-source statuses: both lookups read the tracked status of the
one shared key, so the two status-priority branches are inert and a
duplicate is resolved by keeping the first-seen entry unless a later
entry carries a nonzero currentPrice while the kept one carries zero (in
the live-then-historical order the aggregator uses, the live `active`
entry therefore survives, as in the spec's 50/0 example). -/
theorem claim_C4 (tps : List TrackedPosition) (l : List Position) (e p : Position)
    (hk : e.positionKey = p.positionKey) :
    resolveDup tps e p = (if 0 < p.currentPrice ∧ e.currentPrice = 0 then p else e) ∧
    ((uniquePositions tps l).map (·.positionKey)).Nodup ∧
    (∀ k, k ∈ (uniquePositions tps l).map (·.positionKey) ↔ k ∈ l.map (·.positionKey)) := by
  refine ⟨resolveDup_eq tps e p hk, ?_, ?_⟩
  · exact (uniquePositions_fold_keys tps l []).1 (by simp)
  · intro k
    rw [uniquePositions, (uniquePositions_fold_keys tps l []).2 k]
    simp

/-- Modelled from the spec's words for claim C4 (the code has no
per-entry status, so the claim's rule needs its own definition): the
rank of the status an entry is present as, priority
`active > new > closed`. -/
def specStatusRank (s : String) : Nat :=
  if s == "active" then 3 else if s == "new" then 2 else if s == "closed" then 1 else 0

/-- Modelled from the spec's words for claim C4: the challenger entry
beats the incumbent when its source status ranks strictly higher, or at
equal rank when it has a nonzero current price against a zero one. -/
def specBeats (incumbent challenger : Position × String) : Bool :=
  specStatusRank incumbent.2 < specStatusRank challenger.2 ||
  (specStatusRank challenger.2 == specStatusRank incumbent.2 &&
    challenger.1.currentPrice > 0 && incumbent.1.currentPrice == 0)

/-- Modelled from the spec's words for claim C4: one insertion step of
the claimed deduplication over status-tagged entries. -/
def specInsert (entry : Position × String) :
    List (Position × String) → List (Position × String)
  | [] => [entry]
  | q :: rest =>
    if q.1.positionKey == entry.1.positionKey then
      (if specBeats q entry then entry else q) :: rest
    else q :: specInsert entry rest

/-- Modelled from the spec's words for claim C4: deduplication of
status-tagged entries by status priority, then price freshness. -/
def specDedup (tagged : List (Position × String)) : List Position :=
  (tagged.foldl (fun acc entry => specInsert entry acc) []).map (·.1)

/-- A live snapshot entry for key `a-BTC` at current price 50. -/
def exLive : Position :=
  { asset := "BTC", size := 1, entryPrice := 100, pnl := 10, pnlPercentage := 10
    liquidationPrice := 0, address := "a", aliasName := none, color := none
    openTime := none, leverage := 1, side := "LONG", sizeUSD := 50
    currentPrice := 50, positionKey := "a-BTC" }

/-- A historical closed-cohort entry for the same key, same nonzero
current price, different payload. -/
def exHist : Position :=
  { exLive with pnl := -5, openTime := some 7 }

/-- The same historical entry carrying the zero placeholder price. -/
def exHistZero : Position :=
  { exHist with currentPrice := 0 }

/-- Display filter state with no filter active and nothing hidden. -/
def exCtxAll : DisplayCtx := ⟨[], [], "all", "", "all", ""⟩

/-- C4 counterexample: the same key present as `closed` (price 50,
listed first) and `active` (price 50, listed second).  The claimed rule
keeps the active entry; `getFilteredPositions` keeps the first-seen
closed-cohort entry, because its two status lookups both read the
tracked status of the shared key and therefore never differ. -/
theorem claim_C4_counterexample :
    specDedup [(exHist, "closed"), (exLive, "active")] = [exLive] ∧
    getFilteredPositions exCtxAll [exHist, exLive] false true = [exHist] ∧
    exHist ≠ exLive := by
  refine ⟨by decide, ?_, by decide⟩
  decide

theorem claim_C4_witness :
    exLive.positionKey = exHistZero.positionKey ∧
    (resolveDup [] exLive exHistZero
        = (if 0 < exHistZero.currentPrice ∧ exLive.currentPrice = 0
           then exHistZero else exLive) ∧
      ((uniquePositions [] [exLive, exHistZero]).map (·.positionKey)).Nodup ∧
      (∀ k, k ∈ (uniquePositions [] [exLive, exHistZero]).map (·.positionKey)
          ↔ k ∈ [exLive, exHistZero].map (·.positionKey))) ∧
    getFilteredPositions exCtxAll [exLive, exHistZero] false true = [exLive] :=
  ⟨by decide, claim_C4 [] [exLive, exHistZero] exLive exHistZero (by decide), by decide⟩

/-! ## Claim C7 -/

/-- C7: a position whose key is in the hidden set is excluded from every
default (`active`/`new`/`closed`) tab view, while the `all` view applies
no hidden-status filtering at all — with no text filter active it equals
the bare deduplication, so hidden positions stay visible there. -/
theorem claim_C7 (ctx : DisplayCtx) (positionsList : List Position) :
    (∀ p ∈ getFilteredPositions ctx positionsList false false,
      p.positionKey ∉ ctx.hiddenPositions) ∧
    (ctx.selectedCrypto = "all" → ctx.cryptoFilter = "" → ctx.selectedTrader = "all" →
      ctx.traderFilter = "" →
      getFilteredPositions ctx positionsList false true
        = uniquePositions ctx.trackedPositions positionsList) := by
  constructor
  · intro p hp
    have hcond := (List.mem_filter.mp hp).2
    have h1 : passesHiddenRule ctx false false p = true := by
      simp only [Bool.and_eq_true] at hcond
      exact hcond.1
    simp only [passesHiddenRule, if_false, Bool.not_eq_true',
      Bool.if_false_left] at h1
    intro hmem
    rw [show ctx.hiddenPositions.contains p.positionKey = true from
      List.elem_iff.mpr hmem] at h1
    simp at h1
  · intro h1 h2 h3 h4
    apply List.filter_eq_self.mpr
    intro p _
    simp [passesHiddenRule, passesTextFilters, h1, h2, h3, h4]

/-- Display filter state with key `a-BTC` hidden and no text filter. -/
def exCtxHidden : DisplayCtx := ⟨[], ["a-BTC"], "all", "", "all", ""⟩

theorem claim_C7_witness :
    (∀ p ∈ getFilteredPositions exCtxHidden [exLive] false false,
        p.positionKey ∉ exCtxHidden.hiddenPositions) ∧
    getFilteredPositions exCtxHidden [exLive] false true
      = uniquePositions exCtxHidden.trackedPositions [exLive] :=
  ⟨(claim_C7 exCtxHidden [exLive]).1,
   (claim_C7 exCtxHidden [exLive]).2 rfl rfl rfl rfl⟩

/-! ## Single-observation cycles: claims C1 and C3 -/

/-- The one queued store update of a cycle observing exactly one raw
position. -/
def singleUpdate (now : Int) (db : Db) (A : AddressObj) (raw : RawPosition) :
    PositionUpdate :=
  { address := A.address, asset := raw.coin, size := raw.szi
    entry_price := raw.entryPx, side := sideOf raw.szi, leverage := raw.leverage
    is_active := true, position_key := positionKey A.address raw.coin
    status := classifyStatus now (getTrackedPositions db)
      (positionKey A.address raw.coin) }

/-- The direct notification queue of a cycle observing exactly one raw
position. -/
def singleQueued (now : Int) (db : Db) (A : AddressObj) (raw : RawPosition) :
    List NotifEvent :=
  if isUntracked (getTrackedPositions db) (positionKey A.address raw.coin)
      && A.notifications_enabled.getD true then
    [{ address := A.address, asset := raw.coin, side := sideOf raw.szi
       size := raw.szi, entry_price := raw.entryPx, aliasName := A.aliasName }]
  else []

/-- Evaluation of one reconcile cycle over a single address whose
snapshot holds a single position of nonzero size. -/
theorem fetchPositions_single (emailOk : Bool) (now : Int)
    (currentPrices : List (String × ℚ)) (db : Db) (A : AddressObj)
    (raw : RawPosition) (hsz : raw.szi ≠ 0) :
    fetchPositions emailOk now currentPrices db [⟨A, some [raw]⟩] =
      { db := closePositions now currentPrices
                (upsertTrackedPosition emailOk now db (singleUpdate now db A raw)).1
                (positionsToClose (getTrackedPositions db)
                  [positionKey A.address raw.coin])
        attempts := singleQueued now db A raw ++
          (upsertTrackedPosition emailOk now db (singleUpdate now db A raw)).2.1
        currentPositionKeys := [positionKey A.address raw.coin]
        positionUpdates := [singleUpdate now db A raw]
        closedPositions := positionsToClose (getTrackedPositions db)
          [positionKey A.address raw.coin] } := by
  have hsz' : (raw.szi != 0) = true := bne_iff_ne.mpr hsz
  unfold fetchPositions
  rw [if_neg (by simp)]
  simp only [gatherSnapshots, processAddress, List.filter_cons, hsz',
    List.filter_nil, if_true, List.map_cons, List.map_nil, List.append_nil,
    runUpserts, List.foldl_cons, List.foldl_nil, List.nil_append]
  by_cases hq : (isUntracked (getTrackedPositions db) (positionKey A.address raw.coin)
      && A.notifications_enabled.getD true) = true
  · rw [if_pos hq]
    unfold singleQueued
    rw [if_pos hq]
    rfl
  · rw [if_neg hq]
    unfold singleQueued
    rw [if_neg hq]
    rfl

/-- The notification event `upsertTrackedPosition` emits for a
brand-new key. -/
def upsertEvent (db : Db) (u : PositionUpdate) : NotifEvent :=
  { address := u.address, asset := u.asset, side := u.side, size := u.size
    entry_price := u.entry_price
    aliasName := (db.wallet_addresses.find?
      (fun w => w.address == u.address)).bind (·.aliasName) }

/-- The `sendPositionNotification` invocations of one upsert: none for a
key already stored or a wallet row explicitly disabled; otherwise one
invocation when the transport accepts, three otherwise. -/
theorem upsert_events (emailOk : Bool) (now : Int) (db : Db) (u : PositionUpdate) :
    (upsertTrackedPosition emailOk now db u).2.1
      = if (db.tracked_positions.find?
              (fun p => p.position_key == some u.position_key)).isNone
           && notifDecision (db.wallet_addresses.find?
              (fun w => w.address == u.address))
        then (if emailOk then [upsertEvent db u]
              else [upsertEvent db u, upsertEvent db u, upsertEvent db u])
        else [] := by
  simp only [upsertTrackedPosition, upsertEvent]
  by_cases hn : (db.tracked_positions.find?
      (fun p => p.position_key == some u.position_key)).isNone = true <;>
    by_cases hd : notifDecision (db.wallet_addresses.find?
      (fun w => w.address == u.address)) = true <;>
      simp [hn, hd]

/-- C1 amended: a snapshot position with no record among the previously
tracked (active/new) rows is classified `new`.  The cycle's direct queue
makes one notification attempt when the address object has notifications
enabled (unset defaults to enabled) and none otherwise; in addition the
store upsert makes its own attempts — one (transport accepting) or three
(transport failing) — exactly when the key has no row in the store at
all and the stored wallet settings are not explicitly disabled.  So a
brand-new enabled position gets two attempts in total, not one; zero
when both toggles are off. -/
theorem claim_C1 (emailOk : Bool) (now : Int) (currentPrices : List (String × ℚ))
    (db : Db) (A : AddressObj) (raw : RawPosition) (hsz : raw.szi ≠ 0)
    (hnew : isUntracked (getTrackedPositions db)
      (positionKey A.address raw.coin) = true) :
    (fetchPositions emailOk now currentPrices db [⟨A, some [raw]⟩]).positionUpdates.map
        (·.status) = ["new"] ∧
    countAttempts
        (fetchPositions emailOk now currentPrices db [⟨A, some [raw]⟩]).attempts
        A.address raw.coin =
      (if A.notifications_enabled.getD true then 1 else 0) +
      (if (db.tracked_positions.find? (fun p =>
              p.position_key == some (positionKey A.address raw.coin))).isNone
            && notifDecision (db.wallet_addresses.find?
              (fun w => w.address == A.address))
       then (if emailOk then 1 else 3) else 0) := by
  rw [fetchPositions_single emailOk now currentPrices db A raw hsz]
  have hclass : classifyStatus now (getTrackedPositions db)
      (positionKey A.address raw.coin) = "new" := by
    unfold classifyStatus
    unfold isUntracked at hnew
    rw [Option.isNone_iff_eq_none] at hnew
    rw [hnew]
  constructor
  · simp [singleUpdate, hclass]
  · unfold countAttempts
    rw [List.filter_append, List.length_append]
    have hpart1 : ((singleQueued now db A raw).filter
        (fun e => e.address == A.address && e.asset == raw.coin)).length
        = if A.notifications_enabled.getD true then 1 else 0 := by
      unfold singleQueued
      rw [hnew]
      cases h : A.notifications_enabled.getD true <;> simp [h]
    have hpart2 : (((upsertTrackedPosition emailOk now db
          (singleUpdate now db A raw)).2.1).filter
        (fun e => e.address == A.address && e.asset == raw.coin)).length
        = if (db.tracked_positions.find? (fun p =>
              p.position_key == some (positionKey A.address raw.coin))).isNone
            && notifDecision (db.wallet_addresses.find?
              (fun w => w.address == A.address))
          then (if emailOk then 1 else 3) else 0 := by
      rw [upsert_events]
      simp only [singleUpdate]
      split
      · cases emailOk <;> simp [upsertEvent]
      · rfl
    rw [hpart1, hpart2]

/-! ## Close-phase lemmas -/

/-- Closing one key leaves the lookup of any other key unchanged. -/
theorem close_find_frame (now : Int) (db : Db) (k' : String) (finalPnl exitPrice : ℚ)
    (k : String) (hne : k' ≠ k) :
    ((closeTrackedPosition now db k' finalPnl exitPrice).1).tracked_positions.find?
        (fun p => p.position_key == some k)
      = db.tracked_positions.find? (fun p => p.position_key == some k) := by
  cases hf : db.tracked_positions.find? (fun p => p.position_key == some k') with
  | none => simp [closeTrackedPosition, hf]
  | some e =>
    simp only [closeTrackedPosition, hf]
    rw [find?_update (closeRowUpdate now finalPnl
        (Int.fdiv (now - e.created_at.getD now) 60000)) db.tracked_positions k' k
        (fun p hp => by simp [closeRowUpdate, hp])]
    cases hx : db.tracked_positions.find? (fun p => p.position_key == some k) with
    | none => rfl
    | some x =>
      have hxk : x.position_key = some k := by
        have := List.find?_some hx
        simpa using this
      have hxne : (x.position_key == some k') = false := by
        rw [hxk]
        exact beq_eq_false_iff_ne.mpr (fun h => hne (Option.some.inj h).symm)
      have hred : Option.map
          (fun p => if (p.position_key == some k') = true then
            closeRowUpdate now finalPnl ((now - e.created_at.getD now).fdiv 60000) p
          else p) (some x)
          = some (if (x.position_key == some k') = true then
              closeRowUpdate now finalPnl ((now - e.created_at.getD now).fdiv 60000) x
            else x) := rfl
      rw [hred, hxne]
      simp

/-- Closing a stored key appends exactly its one history row and flips
exactly the matching rows. -/
theorem close_hit (now : Int) (db : Db) (k : String) (finalPnl exitPrice : ℚ)
    (tp : TrackedPosition)
    (hf : db.tracked_positions.find? (fun p => p.position_key == some k) = some tp) :
    ((closeTrackedPosition now db k finalPnl exitPrice).1).position_history
      = db.position_history ++ [closeHistoryRow now k finalPnl exitPrice tp] ∧
    ((closeTrackedPosition now db k finalPnl exitPrice).1).tracked_positions.find?
        (fun p => p.position_key == some k)
      = some (closeRowUpdate now finalPnl
          (Int.fdiv (now - tp.created_at.getD now) 60000) tp) ∧
    ((closeTrackedPosition now db k finalPnl exitPrice).1).wallet_addresses
      = db.wallet_addresses := by
  refine ⟨by simp [closeTrackedPosition, hf], ?_, by simp [closeTrackedPosition, hf]⟩
  simp only [closeTrackedPosition, hf]
  rw [find?_update (closeRowUpdate now finalPnl
      (Int.fdiv (now - tp.created_at.getD now) 60000)) db.tracked_positions k k
      (fun p hp => by simp [closeRowUpdate, hp])]
  rw [hf]
  have htp : tp.position_key = some k := by
    have := List.find?_some hf
    simpa using this
  simp [htp]

/-- The exit price the close fan-out uses for a row. -/
def closeExitPrice (currentPrices : List (String × ℚ)) (tp : TrackedPosition) : ℚ :=
  priceOr currentPrices tp.asset tp.entry_price

/-- The `finalPnl` the close fan-out computes for a row. -/
def closeFinalPnl (currentPrices : List (String × ℚ)) (tp : TrackedPosition) : ℚ :=
  (closeExitPrice currentPrices tp - tp.entry_price) * tp.size

/-- One unrolling of the close fan-out on a row with a truthy key. -/
theorem closePositions_cons (now : Int) (currentPrices : List (String × ℚ))
    (db : Db) (tp : TrackedPosition) (rest : List TrackedPosition) (k : String)
    (hk : tp.position_key = some k) (hke : k ≠ "") :
    closePositions now currentPrices db (tp :: rest)
      = closePositions now currentPrices
          (closeTrackedPosition now db k (closeFinalPnl currentPrices tp)
            (closeExitPrice currentPrices tp)).1 rest := by
  have hkf : (k == "") = false := beq_eq_false_iff_ne.mpr hke
  simp only [closePositions, hk, hkf, Bool.false_eq_true, if_false,
    closeFinalPnl, closeExitPrice]

/-- Keys closed by the fan-out never touch other keys' lookups. -/
theorem closePositions_frame (now : Int) (currentPrices : List (String × ℚ)) :
    ∀ (ts : List TrackedPosition) (db : Db) (k : String),
      (∀ tp ∈ ts, tp.position_key ≠ some k) →
      ((closePositions now currentPrices db ts).tracked_positions.find?
          (fun p => p.position_key == some k))
        = db.tracked_positions.find? (fun p => p.position_key == some k) := by
  intro ts
  induction ts with
  | nil => intro db k _; rfl
  | cons tp rest ih =>
    intro db k h
    have hrest : ∀ tp' ∈ rest, tp'.position_key ≠ some k :=
      fun q hq => h q (List.mem_cons_of_mem _ hq)
    cases hkey : tp.position_key with
    | none =>
      simp only [closePositions, hkey]
      exact ih db k hrest
    | some kk =>
      cases hkk : (kk == "") with
      | true =>
        simp only [closePositions, hkey, hkk, if_true]
        exact ih db k hrest
      | false =>
        have hne : kk ≠ k := by
          intro hcon
          exact h tp (List.mem_cons_self tp rest) (by rw [hkey, hcon])
        rw [closePositions_cons now currentPrices db tp rest kk hkey
          (beq_eq_false_iff_ne.mp hkk)]
        rw [ih _ k hrest]
        exact close_find_frame now db kk _ _ k hne

/-- The history rows the close fan-out appends: exactly one per row, in
order, each built from the row itself with the price-or-entry fallback. -/
theorem closePositions_history (now : Int) (currentPrices : List (String × ℚ)) :
    ∀ (ts : List TrackedPosition) (db : Db),
      (∀ tp ∈ ts, ∃ k, tp.position_key = some k ∧ k ≠ "" ∧
        db.tracked_positions.find? (fun p => p.position_key == some k) = some tp) →
      ((ts.map (·.position_key)).Nodup) →
      (closePositions now currentPrices db ts).position_history
        = db.position_history ++ ts.map (fun tp =>
            closeHistoryRow now (tp.position_key.getD "")
              (closeFinalPnl currentPrices tp) (closeExitPrice currentPrices tp) tp) := by
  intro ts
  induction ts with
  | nil => intro db _ _; simp [closePositions]
  | cons tp rest ih =>
    intro db hpre hnd
    obtain ⟨k, hk, hke, hfind⟩ := hpre tp (List.mem_cons_self tp rest)
    rw [closePositions_cons now currentPrices db tp rest k hk hke]
    have hclose := close_hit now db k (closeFinalPnl currentPrices tp)
      (closeExitPrice currentPrices tp) tp hfind
    have hnd0 := hnd
    rw [List.map_cons, hk, List.nodup_cons] at hnd0
    have hkeytail : some k ∉ rest.map (·.position_key) := hnd0.1
    have hpre' : ∀ tp' ∈ rest, ∃ k', tp'.position_key = some k' ∧ k' ≠ "" ∧
        ((closeTrackedPosition now db k (closeFinalPnl currentPrices tp)
          (closeExitPrice currentPrices tp)).1).tracked_positions.find?
            (fun p => p.position_key == some k') = some tp' := by
      intro tp' hq
      obtain ⟨k', hk', hke', hfind'⟩ := hpre tp' (List.mem_cons_of_mem _ hq)
      refine ⟨k', hk', hke', ?_⟩
      have hne : k ≠ k' := by
        intro hcon
        exact hkeytail (by
          rw [hcon]
          exact List.mem_map.mpr ⟨tp', hq, hk'⟩)
      rw [close_find_frame now db k _ _ k' hne]
      exact hfind'
    rw [ih _ hpre' hnd0.2]
    rw [hclose.1]
    simp [hk, List.append_assoc]

/-! ## Upsert lemmas -/

/-- Upserting one key leaves the lookup of any other key unchanged. -/
theorem upsert_find_frame (emailOk : Bool) (now : Int) (db : Db)
    (u : PositionUpdate) (k : String) (hne : u.position_key ≠ k) :
    (upsertTrackedPosition emailOk now db u).1.tracked_positions.find?
        (fun p => p.position_key == some k)
      = db.tracked_positions.find? (fun p => p.position_key == some k) := by
  simp only [upsertTrackedPosition]
  cases hf : db.tracked_positions.find?
      (fun p => p.position_key == some u.position_key) with
  | none =>
    simp only [hf, Option.isNone_none, if_true]
    rw [find?_append_single]
    cases hx : db.tracked_positions.find? (fun p => p.position_key == some k) with
    | none =>
      have hb : (some u.position_key == some k) = false :=
        beq_eq_false_iff_ne.mpr (fun h => hne (Option.some.inj h))
      simp [hb]
    | some x => rfl
  | some e =>
    simp only [hf, Option.isNone_some, Bool.false_eq_true, if_false]
    rw [find?_update _ db.tracked_positions u.position_key k (fun p _ => rfl)]
    cases hx : db.tracked_positions.find? (fun p => p.position_key == some k) with
    | none => rfl
    | some x =>
      have hxk : x.position_key = some k := by
        have := List.find?_some hx
        simpa using this
      have hxne : (x.position_key == some u.position_key) = false := by
        rw [hxk]
        exact beq_eq_false_iff_ne.mpr (fun h => hne (Option.some.inj h).symm)
      simp only [Option.map_some']
      rw [if_neg]
      intro h
      exact absurd h (by rw [hxne]; exact Bool.false_ne_true)

/-- Looking the upserted key up right after the upsert: the fresh row,
with the recomputed status, `is_active` consistent with it, and the
`created_at` of the pre-existing row when there was one. -/
theorem upsert_find_hit (emailOk : Bool) (now : Int) (db : Db) (u : PositionUpdate) :
    ∃ q, (upsertTrackedPosition emailOk now db u).1.tracked_positions.find?
        (fun p => p.position_key == some u.position_key) = some q ∧
      q.position_key = some u.position_key ∧
      q.status = (if u.status == "" then "active" else u.status) ∧
      q.is_active = some (u.status != "closed") ∧
      q.created_at = (match db.tracked_positions.find?
          (fun p => p.position_key == some u.position_key) with
        | some e => e.created_at
        | none => some now) := by
  simp only [upsertTrackedPosition]
  cases hf : db.tracked_positions.find?
      (fun p => p.position_key == some u.position_key) with
  | none =>
    simp only [hf, Option.isNone_none, if_true]
    rw [find?_append_single, hf]
    have hbeq : (some u.position_key == some u.position_key) = true :=
      beq_self_eq_true _
    simp only [hbeq, if_true]
    exact ⟨_, rfl, rfl, rfl, rfl, rfl⟩
  | some e =>
    simp only [hf, Option.isNone_some, Bool.false_eq_true, if_false]
    rw [find?_update _ db.tracked_positions u.position_key u.position_key
      (fun p _ => rfl), hf]
    have hek : e.position_key = some u.position_key := by
      have := List.find?_some hf
      simpa using this
    have hbeq : (e.position_key == some u.position_key) = true := by
      rw [hek]
      exact beq_self_eq_true _
    simp only [Option.map_some', hbeq, if_true]
    exact ⟨_, rfl, rfl, rfl, rfl, rfl⟩

/-- The write fan-out leaves the lookup of any key it never writes
unchanged. -/
theorem runUpserts_find_frame (emailOk : Bool) (now : Int) :
    ∀ (updates : List PositionUpdate) (db : Db) (k : String),
      (∀ u ∈ updates, u.position_key ≠ k) →
      (runUpserts emailOk now db updates).1.tracked_positions.find?
          (fun p => p.position_key == some k)
        = db.tracked_positions.find? (fun p => p.position_key == some k) := by
  intro updates
  induction updates with
  | nil => intro db k _; rfl
  | cons u rest ih =>
    intro db k h
    simp only [runUpserts]
    rw [ih _ k (fun q hq => h q (List.mem_cons_of_mem _ hq))]
    exact upsert_find_frame emailOk now db u k (h u (List.mem_cons_self u rest))

/-- After the write fan-out, a key some update carries resolves to a row
whose status is that update's (nonempty) status — never `closed` when
every queued status is `new` or `active`. -/
theorem runUpserts_status (emailOk : Bool) (now : Int) :
    ∀ (updates : List PositionUpdate) (db : Db) (k : String),
      (∀ u ∈ updates, u.status = "new" ∨ u.status = "active") →
      k ∈ updates.map (·.position_key) →
      ∃ q, (runUpserts emailOk now db updates).1.tracked_positions.find?
          (fun p => p.position_key == some k) = some q ∧
        (q.status = "new" ∨ q.status = "active") := by
  intro updates
  induction updates with
  | nil => intro db k _ hk; cases hk
  | cons u rest ih =>
    intro db k hst hk
    simp only [runUpserts]
    by_cases hkrest : k ∈ rest.map (·.position_key)
    · exact ih _ k (fun q hq => hst q (List.mem_cons_of_mem _ hq)) hkrest
    · have hku : u.position_key = k := by
        rcases List.mem_cons.mp hk with h | h
        · exact h.symm
        · exact absurd h hkrest
      have hframe : ∀ u' ∈ rest, u'.position_key ≠ k := by
        intro u' hu' hcon
        exact hkrest (List.mem_map.mpr ⟨u', hu', hcon⟩)
      rw [runUpserts_find_frame emailOk now rest _ k hframe]
      subst hku
      obtain ⟨q, hq, _, hqs, _, _⟩ := upsert_find_hit emailOk now db u
      refine ⟨q, hq, ?_⟩
      rcases hst u (List.mem_cons_self u rest) with h | h <;>
        · rw [h] at hqs
          rw [hqs]
          simp [h]

/-- The write fan-out touches only `tracked_positions`. -/
theorem runUpserts_other (emailOk : Bool) (now : Int) :
    ∀ (updates : List PositionUpdate) (db : Db),
      (runUpserts emailOk now db updates).1.position_history = db.position_history ∧
      (runUpserts emailOk now db updates).1.wallet_addresses = db.wallet_addresses := by
  intro updates
  induction updates with
  | nil => intro db; exact ⟨rfl, rfl⟩
  | cons u rest ih =>
    intro db
    simp only [runUpserts]
    have h1 := ih (upsertTrackedPosition emailOk now db u).1
    have h2 : (upsertTrackedPosition emailOk now db u).1.position_history
        = db.position_history ∧
        (upsertTrackedPosition emailOk now db u).1.wallet_addresses
        = db.wallet_addresses := by
      constructor <;> simp only [upsertTrackedPosition]
    exact ⟨h1.1.trans h2.1, h1.2.trans h2.2⟩

/-- `classifyStatus` only ever answers `new` or `active`. -/
theorem classifyStatus_cases (now : Int) (previouslyTracked : List TrackedPosition)
    (key : String) :
    classifyStatus now previouslyTracked key = "new" ∨
    classifyStatus now previouslyTracked key = "active" := by
  unfold classifyStatus
  cases previouslyTracked.find? (fun p => p.position_key == some key) with
  | none => exact Or.inl rfl
  | some e =>
    dsimp only
    by_cases hs : (e.status == "new") = true
    · rw [if_pos hs]
      cases e.created_at with
      | none => exact Or.inr rfl
      | some t =>
        dsimp only
        by_cases ht : now - 86400000 < t
        · exact Or.inl (by rw [if_pos ht])
        · exact Or.inr (by rw [if_neg ht])
    · rw [if_neg hs]
      exact Or.inr rfl

/-- The gathered update queue mirrors the gathered fresh key set, in
order. -/
theorem gather_keys (now : Int) (previouslyTracked : List TrackedPosition) :
    ∀ inputs : List AddressFetch,
      (gatherSnapshots now previouslyTracked inputs).2.1.map (·.position_key)
        = (gatherSnapshots now previouslyTracked inputs).1 := by
  intro inputs
  induction inputs with
  | nil => rfl
  | cons af rest ih =>
    simp only [gatherSnapshots, List.map_append, ih]
    congr 1
    cases haf : af.result with
    | none => simp [processAddress, haf]
    | some assetPositions =>
      simp only [processAddress, haf, List.map_map]
      rfl

/-- Every gathered update's status comes from `classifyStatus`: it is
`new` or `active`. -/
theorem gather_status (now : Int) (previouslyTracked : List TrackedPosition) :
    ∀ inputs : List AddressFetch,
      ∀ u ∈ (gatherSnapshots now previouslyTracked inputs).2.1,
        u.status = "new" ∨ u.status = "active" := by
  intro inputs
  induction inputs with
  | nil => intro u hu; cases hu
  | cons af rest ih =>
    intro u hu
    simp only [gatherSnapshots] at hu
    rcases List.mem_append.mp hu with h | h
    · cases haf : af.result with
      | none =>
        simp only [processAddress, haf] at h
        cases h
      | some assetPositions =>
        simp only [processAddress, haf] at h
        obtain ⟨p, _, rfl⟩ := List.mem_map.mp h
        exact classifyStatus_cases now previouslyTracked _
    · exact ih u h

/-- An address object with notifications enabled. -/
def exAddrA : AddressObj := ⟨"a", none, none, some true⟩

/-- A raw snapshot position: 1 BTC long at entry 100. -/
def exRawBTC : RawPosition := ⟨"BTC", 1, 100, 0, 0, 1⟩

/-- An entirely empty store. -/
def exDbEmpty : Db := ⟨[], [], []⟩

/-- C1 counterexample: a brand-new position (no tracked row, no store
row) at an address with notifications enabled is classified `new` but
triggers two notification attempts in one cycle — one from the
reconcile queue and one inside the store upsert — where the claim
demands exactly one. -/
theorem claim_C1_counterexample :
    isUntracked (getTrackedPositions exDbEmpty) (positionKey "a" "BTC") = true ∧
    exAddrA.notifications_enabled = some true ∧
    (fetchPositions true 0 [] exDbEmpty
        [⟨exAddrA, some [exRawBTC]⟩]).positionUpdates.map (·.status) = ["new"] ∧
    countAttempts (fetchPositions true 0 [] exDbEmpty
        [⟨exAddrA, some [exRawBTC]⟩]).attempts "a" "BTC" = 2 ∧
    (2 : Nat) ≠ 1 := by
  refine ⟨by decide, by decide, by decide, by decide, by decide⟩

theorem claim_C1_witness :
    (exRawBTC.szi ≠ 0 ∧
      isUntracked (getTrackedPositions exDbEmpty)
        (positionKey exAddrA.address exRawBTC.coin) = true) ∧
    ((fetchPositions true 0 [] exDbEmpty
        [⟨exAddrA, some [exRawBTC]⟩]).positionUpdates.map (·.status) = ["new"] ∧
    countAttempts (fetchPositions true 0 [] exDbEmpty
        [⟨exAddrA, some [exRawBTC]⟩]).attempts exAddrA.address exRawBTC.coin =
      (if exAddrA.notifications_enabled.getD true then 1 else 0) +
      (if (exDbEmpty.tracked_positions.find? (fun p =>
              p.position_key == some (positionKey exAddrA.address exRawBTC.coin))).isNone
            && notifDecision (exDbEmpty.wallet_addresses.find?
              (fun w => w.address == exAddrA.address))
       then (if true then 1 else 3) else 0)) :=
  ⟨⟨by decide, by decide⟩,
   claim_C1 true 0 [] exDbEmpty exAddrA exRawBTC (by decide) (by decide)⟩

/-! ## Claim C3 -/

/-- The stored row of a position that was closed earlier. -/
def exRowClosed : TrackedPosition :=
  { position_key := some "a-BTC", address := "a", asset := "BTC", side := "LONG"
    size := 1, entry_price := 100, leverage := 1, status := "closed"
    is_active := some false, created_at := some 5, closed_at := some 6
    final_pnl := some 0, holding_duration_minutes := some 0, last_updated := some 6 }

/-- A store holding only that closed row plus its wallet row. -/
def exDbClosed : Db := ⟨[exRowClosed], [], [⟨"a", none, some true⟩]⟩

/-- C3 counterexample: re-observing the closed key `a-BTC` reopens the
row with status `new`, not `active` — the closed row is missing from
the previously tracked (active/new) list, so the snapshot entry takes
the brand-new branch. -/
theorem claim_C3_counterexample :
    exDbClosed.tracked_positions.map (fun p => (p.position_key, p.status))
      = [(some "a-BTC", "closed")] ∧
    (fetchPositions true 1000 [] exDbClosed
        [⟨exAddrA, some [exRawBTC]⟩]).db.tracked_positions.map
        (fun p => (p.position_key, p.status, p.is_active))
      = [(some "a-BTC", "new", some true)] ∧
    ("new" : String) ≠ "active" := by
  refine ⟨by decide, by decide, by decide⟩

/-- Keys selected for closing are never in the fresh key set. -/
theorem positionsToClose_not_fresh (previouslyTracked : List TrackedPosition)
    (currentPositionKeys : List String) (tp : TrackedPosition)
    (htp : tp ∈ positionsToClose previouslyTracked currentPositionKeys)
    (k : String) (hk : k ∈ currentPositionKeys) : tp.position_key ≠ some k := by
  intro hcon
  have hcond := (List.mem_filter.mp htp).2
  rw [hcon] at hcond
  simp only [Bool.and_eq_true, Bool.not_eq_true'] at hcond
  have : currentPositionKeys.contains k = true := List.elem_iff.mpr hk
  rw [this] at hcond
  exact absurd hcond.1.1.2 (by decide)

/-- C3 amended: re-observing the same `(address, asset)` pair after its
row was closed keeps the positionKey identity and reopens the row — but
with status `new`, not `active`: the closed row is absent from the
previously tracked (active/new) list the classifier consults, so the
observation is treated as brand new; the upsert flips the stored row to
status `new`, `is_active` true, preserving its `created_at`. -/
theorem claim_C3 (emailOk : Bool) (now : Int) (currentPrices : List (String × ℚ))
    (db : Db) (A : AddressObj) (raw : RawPosition) (e : TrackedPosition)
    (hsz : raw.szi ≠ 0)
    (hfind : db.tracked_positions.find? (fun p =>
        p.position_key == some (positionKey A.address raw.coin)) = some e)
    (hclosed : e.status = "closed")
    (hnodup : (db.tracked_positions.filterMap (·.position_key)).Nodup) :
    (fetchPositions emailOk now currentPrices db
        [⟨A, some [raw]⟩]).positionUpdates.map (·.status) = ["new"] ∧
    ((fetchPositions emailOk now currentPrices db
        [⟨A, some [raw]⟩]).db.tracked_positions.find?
          (fun p => p.position_key == some (positionKey A.address raw.coin))).map
        (fun p => (p.position_key, p.status, p.is_active, p.created_at))
      = some (some (positionKey A.address raw.coin), "new", some true, e.created_at) := by
  have hprev : (getTrackedPositions db).find? (fun p =>
      p.position_key == some (positionKey A.address raw.coin)) = none := by
    apply List.find?_eq_none.mpr
    intro q hq hqk
    have hqk' : q.position_key = some (positionKey A.address raw.coin) := by
      simpa using hqk
    have hqmem : q ∈ db.tracked_positions := List.mem_of_mem_filter hq
    have hfq := find?_of_mem_nodupKeys db.tracked_positions q
      (positionKey A.address raw.coin) hqmem hqk' hnodup
    have hqe : q = e := by
      rw [hfq] at hfind
      exact Option.some.inj hfind
    subst hqe
    have hcond := (List.mem_filter.mp hq).2
    rw [hclosed] at hcond
    simp at hcond
  have hnew : isUntracked (getTrackedPositions db)
      (positionKey A.address raw.coin) = true := by
    unfold isUntracked
    rw [hprev]
    rfl
  have hclass : classifyStatus now (getTrackedPositions db)
      (positionKey A.address raw.coin) = "new" := by
    unfold classifyStatus
    rw [hprev]
  rw [fetchPositions_single emailOk now currentPrices db A raw hsz]
  constructor
  · simp [singleUpdate, hclass]
  · have hframe : ∀ tp ∈ positionsToClose (getTrackedPositions db)
        [positionKey A.address raw.coin],
        tp.position_key ≠ some (positionKey A.address raw.coin) := by
      intro tp htp
      exact positionsToClose_not_fresh _ _ tp htp _ (List.mem_singleton_self _)
    rw [closePositions_frame now currentPrices _ _ _ hframe]
    obtain ⟨q, hq, hqk, hqs, hqa, hqc⟩ :=
      upsert_find_hit emailOk now db (singleUpdate now db A raw)
    have hkey : (singleUpdate now db A raw).position_key
        = positionKey A.address raw.coin := rfl
    rw [hkey] at hq hqk hqc
    rw [hq, Option.map_some']
    have hstat : (singleUpdate now db A raw).status = "new" := by
      simp [singleUpdate, hclass]
    rw [hstat] at hqs hqa
    rw [hfind] at hqc
    have hqs' : q.status = "new" := by
      rw [hqs]
      decide
    have hqa' : q.is_active = some true := by
      rw [hqa]
      decide
    rw [hqk, hqs', hqa', hqc]

theorem claim_C3_witness :
    (exRawBTC.szi ≠ 0 ∧
      exDbClosed.tracked_positions.find? (fun p =>
        p.position_key == some (positionKey exAddrA.address exRawBTC.coin))
        = some exRowClosed ∧
      exRowClosed.status = "closed" ∧
      (exDbClosed.tracked_positions.filterMap (·.position_key)).Nodup) ∧
    ((fetchPositions true 1000 [] exDbClosed
        [⟨exAddrA, some [exRawBTC]⟩]).positionUpdates.map (·.status) = ["new"] ∧
    ((fetchPositions true 1000 [] exDbClosed
        [⟨exAddrA, some [exRawBTC]⟩]).db.tracked_positions.find?
          (fun p => p.position_key
            == some (positionKey exAddrA.address exRawBTC.coin))).map
        (fun p => (p.position_key, p.status, p.is_active, p.created_at))
      = some (some (positionKey exAddrA.address exRawBTC.coin), "new", some true,
          exRowClosed.created_at)) :=
  ⟨⟨by decide, by decide, by decide, by decide⟩,
   claim_C3 true 1000 [] exDbClosed exAddrA exRawBTC exRowClosed
     (by decide) (by decide) (by decide) (by decide)⟩

/-- Closing the head key preserves every other closable row's lookup. -/
theorem close_step_pre (now : Int) (currentPrices : List (String × ℚ)) (db : Db)
    (tp0 : TrackedPosition) (k0 : String) (rest : List TrackedPosition)
    (hkeytail : some k0 ∉ rest.map (·.position_key))
    (hpre : ∀ tp' ∈ rest, ∃ k', tp'.position_key = some k' ∧ k' ≠ "" ∧
      db.tracked_positions.find? (fun p => p.position_key == some k') = some tp') :
    ∀ tp' ∈ rest, ∃ k', tp'.position_key = some k' ∧ k' ≠ "" ∧
      ((closeTrackedPosition now db k0 (closeFinalPnl currentPrices tp0)
        (closeExitPrice currentPrices tp0)).1).tracked_positions.find?
          (fun p => p.position_key == some k') = some tp' := by
  intro tp' hq
  obtain ⟨k', hk', hke', hfind'⟩ := hpre tp' hq
  refine ⟨k', hk', hke', ?_⟩
  have hne : k0 ≠ k' := by
    intro hcon
    exact hkeytail (by
      rw [hcon]
      exact List.mem_map.mpr ⟨tp', hq, hk'⟩)
  rw [close_find_frame now db k0 _ _ k' hne]
  exact hfind'

/-- After the close fan-out, every closable row's key resolves to its
closed version. -/
theorem closePositions_closes (now : Int) (currentPrices : List (String × ℚ)) :
    ∀ (ts : List TrackedPosition) (db : Db),
      (∀ tp ∈ ts, ∃ k, tp.position_key = some k ∧ k ≠ "" ∧
        db.tracked_positions.find? (fun p => p.position_key == some k) = some tp) →
      ((ts.map (·.position_key)).Nodup) →
      ∀ tp ∈ ts, ∀ k, tp.position_key = some k →
        (closePositions now currentPrices db ts).tracked_positions.find?
            (fun p => p.position_key == some k)
          = some (closeRowUpdate now (closeFinalPnl currentPrices tp)
              (Int.fdiv (now - tp.created_at.getD now) 60000) tp) := by
  intro ts
  induction ts with
  | nil => intro db _ _ tp htp; cases htp
  | cons tp0 rest ih =>
    intro db hpre hnd tp htp k hk
    obtain ⟨k0, hk0, hke0, hfind0⟩ := hpre tp0 (List.mem_cons_self tp0 rest)
    rw [closePositions_cons now currentPrices db tp0 rest k0 hk0 hke0]
    have hnd0 := hnd
    rw [List.map_cons, hk0, List.nodup_cons] at hnd0
    rcases List.mem_cons.mp htp with rfl | hmem
    · have hkk : k = k0 := Option.some.inj (hk.symm.trans hk0)
      subst hkk
      have hhit := (close_hit now db k (closeFinalPnl currentPrices tp)
        (closeExitPrice currentPrices tp) tp hfind0).2.1
      have hframe : ∀ tp' ∈ rest, tp'.position_key ≠ some k := by
        intro tp' htp' hcon
        exact hnd0.1 (List.mem_map.mpr ⟨tp', htp', hcon⟩)
      rw [closePositions_frame now currentPrices rest _ k hframe]
      exact hhit
    · exact ih _ (close_step_pre now currentPrices db tp0 k0 rest hnd0.1
        (fun q hq => hpre q (List.mem_cons_of_mem _ hq))) hnd0.2 tp hmem k hk

/-- `contains` is false exactly on non-members. -/
theorem contains_eq_false_iff (l : List String) (a : String) :
    (l.contains a = false) ↔ a ∉ l := by
  constructor
  · intro h hm
    have h2 : List.elem a l = true := List.elem_iff.mpr hm
    have h3 : List.elem a l = false := h
    rw [h2] at h3
    cases h3
  · intro h
    cases hc : l.contains a
    · rfl
    · exact absurd (List.elem_iff.mp hc) h

/-- Membership in the closable set, spelled out. -/
theorem positionsToClose_iff (previouslyTracked : List TrackedPosition)
    (currentPositionKeys : List String) (tp : TrackedPosition) :
    tp ∈ positionsToClose previouslyTracked currentPositionKeys ↔
    tp ∈ previouslyTracked ∧ ∃ k, tp.position_key = some k ∧ k ≠ "" ∧
      k ∉ currentPositionKeys ∧
      (tp.status = "active" ∨ tp.status = "new") ∧
      (tp.is_active = some true ∨ tp.is_active = none) := by
  rw [positionsToClose, List.mem_filter]
  apply and_congr_right
  intro _
  cases hpk : tp.position_key with
  | none => simp [hpk]
  | some k =>
    simp only [hpk, Option.some.injEq]
    constructor
    · intro hc
      simp only [Bool.and_eq_true, bne_iff_ne, ne_eq, Bool.not_eq_true',
        Bool.or_eq_true, beq_iff_eq] at hc
      exact ⟨k, rfl, hc.1.1.1, (contains_eq_false_iff _ _).mp hc.1.1.2,
        hc.1.2, hc.2⟩
    · rintro ⟨k', hk', hke', hmem', hst', hia'⟩
      subst hk'
      simp only [Bool.and_eq_true, bne_iff_ne, ne_eq, Bool.not_eq_true',
        Bool.or_eq_true, beq_iff_eq]
      exact ⟨⟨⟨hke', (contains_eq_false_iff _ _).mpr hmem'⟩, hst'⟩, hia'⟩

/-- All-`some` keys with duplicate-free underlying strings are
duplicate-free as options. -/
theorem nodup_map_key (ts : List TrackedPosition)
    (hall : ∀ tp ∈ ts, tp.position_key ≠ none)
    (hnd : (ts.filterMap (·.position_key)).Nodup) :
    (ts.map (·.position_key)).Nodup := by
  induction ts with
  | nil => simp
  | cons a rest ih =>
    cases ha : a.position_key with
    | none => exact absurd ha (hall a (List.mem_cons_self a rest))
    | some k =>
      rw [List.filterMap_cons, ha] at hnd
      have hnd' := List.nodup_cons.mp hnd
      rw [List.map_cons, ha, List.nodup_cons]
      constructor
      · intro hcon
        obtain ⟨tp', htp', hk'⟩ := List.mem_map.mp hcon
        exact hnd'.1 (List.mem_filterMap.mpr ⟨tp', htp', hk'⟩)
      · exact ih (fun q hq => hall q (List.mem_cons_of_mem _ hq)) hnd'.2

/-- One reconcile cycle over a non-empty address list, unfolded. -/
theorem fetchPositions_eq (emailOk : Bool) (now : Int)
    (currentPrices : List (String × ℚ)) (db : Db) (inputs : List AddressFetch)
    (hne : inputs ≠ []) :
    fetchPositions emailOk now currentPrices db inputs =
      { db := closePositions now currentPrices
          (runUpserts emailOk now db
            (gatherSnapshots now (getTrackedPositions db) inputs).2.1).1
          (positionsToClose (getTrackedPositions db)
            (gatherSnapshots now (getTrackedPositions db) inputs).1)
        attempts := (gatherSnapshots now (getTrackedPositions db) inputs).2.2 ++
          (runUpserts emailOk now db
            (gatherSnapshots now (getTrackedPositions db) inputs).2.1).2
        currentPositionKeys := (gatherSnapshots now (getTrackedPositions db) inputs).1
        positionUpdates := (gatherSnapshots now (getTrackedPositions db) inputs).2.1
        closedPositions := positionsToClose (getTrackedPositions db)
          (gatherSnapshots now (getTrackedPositions db) inputs).1 } := by
  have hemp : inputs.isEmpty = false := by
    cases inputs with
    | nil => exact absurd rfl hne
    | cons a l => rfl
  unfold fetchPositions
  rw [hemp]
  simp only [Bool.false_eq_true, if_false]

/-- C2: with reachable store invariants (keys nonempty and unique),
after a cycle over a non-empty address list the rows selected for
closing are exactly the previously tracked rows with a non-null key
absent from the fresh key set, status active or new, and `is_active`
true or unset; each such closure appends exactly one PositionHistory
row (and nothing else is appended); every closed row's key then reads
back status `closed`; and no other tracked row ends up closed. -/
theorem claim_C2 (emailOk : Bool) (now : Int) (currentPrices : List (String × ℚ))
    (db : Db) (inputs : List AddressFetch)
    (hne : inputs ≠ [])
    (hkeys : ∀ tp ∈ db.tracked_positions, tp.position_key ≠ some "")
    (hnodup : (db.tracked_positions.filterMap (·.position_key)).Nodup) :
    (∀ tp, tp ∈ (fetchPositions emailOk now currentPrices db inputs).closedPositions ↔
      tp ∈ getTrackedPositions db ∧
      ∃ k, tp.position_key = some k ∧
        k ∉ (fetchPositions emailOk now currentPrices db inputs).currentPositionKeys ∧
        (tp.status = "active" ∨ tp.status = "new") ∧
        (tp.is_active = some true ∨ tp.is_active = none)) ∧
    ((fetchPositions emailOk now currentPrices db inputs).db.position_history
      = db.position_history ++
        (fetchPositions emailOk now currentPrices db inputs).closedPositions.map
          (fun tp => closeHistoryRow now (tp.position_key.getD "")
            (closeFinalPnl currentPrices tp) (closeExitPrice currentPrices tp) tp)) ∧
    (∀ tp ∈ (fetchPositions emailOk now currentPrices db inputs).closedPositions,
      ∀ k, tp.position_key = some k →
        ((fetchPositions emailOk now currentPrices db inputs).db.tracked_positions.find?
            (fun p => p.position_key == some k)).map (·.status) = some "closed") ∧
    (∀ tp ∈ getTrackedPositions db,
      tp ∉ (fetchPositions emailOk now currentPrices db inputs).closedPositions →
      ∀ k, tp.position_key = some k →
        ((fetchPositions emailOk now currentPrices db inputs).db.tracked_positions.find?
            (fun p => p.position_key == some k)).map (·.status) ≠ some "closed") := by
  rw [fetchPositions_eq emailOk now currentPrices db inputs hne]
  have hF1 : (gatherSnapshots now (getTrackedPositions db) inputs).2.1.map
      (·.position_key) = (gatherSnapshots now (getTrackedPositions db) inputs).1 :=
    gather_keys now (getTrackedPositions db) inputs
  have hF2 : ∀ u ∈ (gatherSnapshots now (getTrackedPositions db) inputs).2.1,
      u.status = "new" ∨ u.status = "active" :=
    gather_status now (getTrackedPositions db) inputs
  have hF3 : ∀ tp ∈ positionsToClose (getTrackedPositions db)
      (gatherSnapshots now (getTrackedPositions db) inputs).1,
      ∃ k, tp.position_key = some k ∧ k ≠ "" ∧
        (runUpserts emailOk now db
          (gatherSnapshots now (getTrackedPositions db) inputs).2.1).1.tracked_positions.find?
            (fun p => p.position_key == some k) = some tp := by
    intro tp htp
    obtain ⟨hprevm, k, hk, hke, hkmem, _, _⟩ := (positionsToClose_iff _ _ tp).mp htp
    have htdb : tp ∈ db.tracked_positions := List.mem_of_mem_filter hprevm
    have hfd : db.tracked_positions.find?
        (fun p => p.position_key == some k) = some tp :=
      find?_of_mem_nodupKeys db.tracked_positions tp k htdb hk hnodup
    have hfr : ∀ u ∈ (gatherSnapshots now (getTrackedPositions db) inputs).2.1,
        u.position_key ≠ k := by
      intro u hu hcon
      exact hkmem (hF1 ▸ List.mem_map.mpr ⟨u, hu, hcon⟩)
    exact ⟨k, hk, hke, by
      rw [runUpserts_find_frame emailOk now _ db k hfr]
      exact hfd⟩
  have hF4 : ((positionsToClose (getTrackedPositions db)
      (gatherSnapshots now (getTrackedPositions db) inputs).1).map
        (·.position_key)).Nodup := by
    apply nodup_map_key
    · intro tp htp
      obtain ⟨_, k, hk, _, _, _, _⟩ := (positionsToClose_iff _ _ tp).mp htp
      rw [hk]
      exact Option.noConfusion
    · have hs : List.Sublist (positionsToClose (getTrackedPositions db)
          (gatherSnapshots now (getTrackedPositions db) inputs).1)
          db.tracked_positions := by
        exact List.Sublist.trans (List.filter_sublist _) (List.filter_sublist _)
      exact List.Nodup.sublist (List.Sublist.filterMap (·.position_key) hs) hnodup
  refine ⟨?_, ?_, ?_, ?_⟩
  · -- (a) membership characterization
    intro tp
    rw [positionsToClose_iff]
    constructor
    · rintro ⟨hm, k, hk, _, hkmem, hst, hia⟩
      exact ⟨hm, k, hk, hkmem, hst, hia⟩
    · rintro ⟨hm, k, hk, hkmem, hst, hia⟩
      refine ⟨hm, k, hk, ?_, hkmem, hst, hia⟩
      intro hcon
      apply hkeys tp (List.mem_of_mem_filter hm)
      rw [hk, hcon]
  · -- (b) history
    rw [closePositions_history now currentPrices _ _ hF3 hF4,
      (runUpserts_other emailOk now _ db).1]
  · -- (c') closed rows read back closed
    intro tp htp k hk
    rw [closePositions_closes now currentPrices _ _ hF3 hF4 tp htp k hk]
    rfl
  · -- (c) no other row ends closed
    intro tp hmprev htnc k hk
    have hke : k ≠ "" := by
      intro hcon
      apply hkeys tp (List.mem_of_mem_filter hmprev)
      rw [hk, hcon]
    by_cases hkc : k ∈ (gatherSnapshots now (getTrackedPositions db) inputs).1
    · have hframe : ∀ tp' ∈ positionsToClose (getTrackedPositions db)
          (gatherSnapshots now (getTrackedPositions db) inputs).1,
          tp'.position_key ≠ some k := by
        intro tp' htp'
        exact positionsToClose_not_fresh _ _ tp' htp' k hkc
      rw [closePositions_frame now currentPrices _ _ k hframe]
      have hkc' : k ∈ (gatherSnapshots now (getTrackedPositions db) inputs).2.1.map
          (·.position_key) := by
        rw [hF1]
        exact hkc
      obtain ⟨q, hq, hqs⟩ := runUpserts_status emailOk now _ db k hF2 hkc'
      rw [hq]
      intro hcon
      have hqc : q.status = "closed" := Option.some.inj hcon
      rcases hqs with h | h <;> rw [h] at hqc <;> exact absurd hqc (by decide)
    · exfalso
      apply htnc
      rw [positionsToClose_iff]
      have hcond := (List.mem_filter.mp hmprev).2
      simp only [Bool.and_eq_true, Bool.or_eq_true, beq_iff_eq] at hcond
      refine ⟨hmprev, k, hk, hke, hkc, hcond.1, ?_⟩
      rcases hcond.2 with h | h
      · exact Or.inl h
      · exact Or.inr (by simpa using h)

/-- Tracked active test row for one asset. -/
def mkActiveRow (address asset : String) : TrackedPosition :=
  { position_key := some (address ++ "-" ++ asset), address := address
    asset := asset, side := "LONG", size := 2, entry_price := 100, leverage := 1
    status := "active", is_active := some true, created_at := some 0
    closed_at := none, final_pnl := none, holding_duration_minutes := none
    last_updated := some 0 }

/-- The spec's closure scenario: keys `{a-A, a-B, a-C}` all active. -/
def exDbABC : Db :=
  ⟨[mkActiveRow "a" "A", mkActiveRow "a" "B", mkActiveRow "a" "C"], [], []⟩

/-- A snapshot containing only asset `A` for address `a`. -/
def exRawA : RawPosition := ⟨"A", 2, 100, 0, 0, 1⟩

theorem claim_C2_witness :
    (([⟨exAddrA, some [exRawA]⟩] : List AddressFetch) ≠ [] ∧
      (∀ tp ∈ exDbABC.tracked_positions, tp.position_key ≠ some "") ∧
      (exDbABC.tracked_positions.filterMap (·.position_key)).Nodup) ∧
    ((∀ tp, tp ∈ (fetchPositions true 120000 [("B", 110)] exDbABC
        [⟨exAddrA, some [exRawA]⟩]).closedPositions ↔
      tp ∈ getTrackedPositions exDbABC ∧
      ∃ k, tp.position_key = some k ∧
        k ∉ (fetchPositions true 120000 [("B", 110)] exDbABC
          [⟨exAddrA, some [exRawA]⟩]).currentPositionKeys ∧
        (tp.status = "active" ∨ tp.status = "new") ∧
        (tp.is_active = some true ∨ tp.is_active = none)) ∧
    ((fetchPositions true 120000 [("B", 110)] exDbABC
        [⟨exAddrA, some [exRawA]⟩]).db.position_history
      = exDbABC.position_history ++
        (fetchPositions true 120000 [("B", 110)] exDbABC
          [⟨exAddrA, some [exRawA]⟩]).closedPositions.map
          (fun tp => closeHistoryRow 120000 (tp.position_key.getD "")
            (closeFinalPnl [("B", 110)] tp) (closeExitPrice [("B", 110)] tp) tp)) ∧
    (∀ tp ∈ (fetchPositions true 120000 [("B", 110)] exDbABC
        [⟨exAddrA, some [exRawA]⟩]).closedPositions,
      ∀ k, tp.position_key = some k →
        ((fetchPositions true 120000 [("B", 110)] exDbABC
          [⟨exAddrA, some [exRawA]⟩]).db.tracked_positions.find?
            (fun p => p.position_key == some k)).map (·.status) = some "closed") ∧
    (∀ tp ∈ getTrackedPositions exDbABC,
      tp ∉ (fetchPositions true 120000 [("B", 110)] exDbABC
        [⟨exAddrA, some [exRawA]⟩]).closedPositions →
      ∀ k, tp.position_key = some k →
        ((fetchPositions true 120000 [("B", 110)] exDbABC
          [⟨exAddrA, some [exRawA]⟩]).db.tracked_positions.find?
            (fun p => p.position_key == some k)).map (·.status) ≠ some "closed")) :=
  ⟨⟨by decide, by decide, by decide⟩,
   claim_C2 true 120000 [("B", 110)] exDbABC [⟨exAddrA, some [exRawA]⟩]
     (by decide) (by decide) (by decide)⟩

/-! ## Claim C8 -/

/-- Every closable row of a cycle still resolves to itself after the
write fan-out (its key is absent from the fresh key set the upserts
cover). -/
theorem cycle_closable_found (emailOk : Bool) (now : Int) (db : Db)
    (inputs : List AddressFetch)
    (hnodup : (db.tracked_positions.filterMap (·.position_key)).Nodup) :
    ∀ tp ∈ positionsToClose (getTrackedPositions db)
      (gatherSnapshots now (getTrackedPositions db) inputs).1,
      ∃ k, tp.position_key = some k ∧ k ≠ "" ∧
        (runUpserts emailOk now db
          (gatherSnapshots now (getTrackedPositions db) inputs).2.1).1.tracked_positions.find?
            (fun p => p.position_key == some k) = some tp := by
  intro tp htp
  obtain ⟨hprevm, k, hk, hke, hkmem, _, _⟩ := (positionsToClose_iff _ _ tp).mp htp
  have htdb : tp ∈ db.tracked_positions := List.mem_of_mem_filter hprevm
  have hfd : db.tracked_positions.find?
      (fun p => p.position_key == some k) = some tp :=
    find?_of_mem_nodupKeys db.tracked_positions tp k htdb hk hnodup
  have hfr : ∀ u ∈ (gatherSnapshots now (getTrackedPositions db) inputs).2.1,
      u.position_key ≠ k := by
    intro u hu hcon
    exact hkmem ((gather_keys now (getTrackedPositions db) inputs)
      ▸ List.mem_map.mpr ⟨u, hu, hcon⟩)
  exact ⟨k, hk, hke, by
    rw [runUpserts_find_frame emailOk now _ db k hfr]
    exact hfd⟩

/-- The closable rows of a cycle carry pairwise distinct keys. -/
theorem cycle_closable_nodup (now : Int) (db : Db) (inputs : List AddressFetch)
    (hnodup : (db.tracked_positions.filterMap (·.position_key)).Nodup) :
    ((positionsToClose (getTrackedPositions db)
      (gatherSnapshots now (getTrackedPositions db) inputs).1).map
        (·.position_key)).Nodup := by
  apply nodup_map_key
  · intro tp htp
    obtain ⟨_, k, hk, _, _, _, _⟩ := (positionsToClose_iff _ _ tp).mp htp
    rw [hk]
    exact Option.noConfusion
  · have hs : List.Sublist (positionsToClose (getTrackedPositions db)
        (gatherSnapshots now (getTrackedPositions db) inputs).1)
        db.tracked_positions := by
      exact List.Sublist.trans (List.filter_sublist _) (List.filter_sublist _)
    exact List.Nodup.sublist (List.Sublist.filterMap (·.position_key) hs) hnodup

/-- C8 amended: for every position the reconciler closes,
`finalPnl = (lastKnownPrice − entryPrice) × size` where
`lastKnownPrice` is the cycle's fresh price for the asset, falling back
to `entryPrice` when no fresh price exists **or the fresh price is 0**
(the `||` fallback treats a zero price as missing); the appended
PositionHistory row carries that `finalPnl` as `pnl`, the price as
`exit_price`, and `pnlPercentage = finalPnl / (|size| × entryPrice) ×
100` when `entryPrice > 0`, else `0`. -/
theorem claim_C8 (emailOk : Bool) (now : Int) (currentPrices : List (String × ℚ))
    (db : Db) (inputs : List AddressFetch)
    (hne : inputs ≠ [])
    (hkeys : ∀ tp ∈ db.tracked_positions, tp.position_key ≠ some "")
    (hnodup : (db.tracked_positions.filterMap (·.position_key)).Nodup) :
    ((fetchPositions emailOk now currentPrices db inputs).db.position_history
      = db.position_history ++
        (fetchPositions emailOk now currentPrices db inputs).closedPositions.map
          (fun tp => closeHistoryRow now (tp.position_key.getD "")
            (closeFinalPnl currentPrices tp) (closeExitPrice currentPrices tp) tp)) ∧
    (∀ tp : TrackedPosition,
      closeFinalPnl currentPrices tp
        = (priceOr currentPrices tp.asset tp.entry_price - tp.entry_price) * tp.size ∧
      (closeHistoryRow now (tp.position_key.getD "")
          (closeFinalPnl currentPrices tp) (closeExitPrice currentPrices tp) tp).pnl
        = closeFinalPnl currentPrices tp ∧
      (closeHistoryRow now (tp.position_key.getD "")
          (closeFinalPnl currentPrices tp) (closeExitPrice currentPrices tp) tp).exit_price
        = priceOr currentPrices tp.asset tp.entry_price ∧
      (closeHistoryRow now (tp.position_key.getD "")
          (closeFinalPnl currentPrices tp) (closeExitPrice currentPrices tp) tp).pnl_percentage
        = if 0 < tp.entry_price
          then closeFinalPnl currentPrices tp / (|tp.size| * tp.entry_price) * 100
          else 0) ∧
    (∀ asset fallback, priceOr currentPrices asset fallback
      = match currentPrices.lookup asset with
        | some v => if v = 0 then fallback else v
        | none => fallback) := by
  refine ⟨?_, ?_, ?_⟩
  · rw [fetchPositions_eq emailOk now currentPrices db inputs hne]
    rw [closePositions_history now currentPrices _ _
      (cycle_closable_found emailOk now db inputs hnodup)
      (cycle_closable_nodup now db inputs hnodup),
      (runUpserts_other emailOk now _ db).1]
  · intro tp
    exact ⟨rfl, rfl, rfl, rfl⟩
  · intro asset fallback
    unfold priceOr
    cases currentPrices.lookup asset with
    | none => rfl
    | some v =>
      dsimp only
      by_cases hv : v = 0
      · rw [if_pos (by simp [hv]), if_pos hv]
      · rw [if_neg (by simp [hv]), if_neg hv]

/-- Modelled from the spec's words for claim C8: "the freshest available
price... falls back to entryPrice when no fresh price exists" — fallback
on a missing entry only. -/
def specLastKnownPrice (currentPrices : List (String × ℚ)) (asset : String)
    (entryPrice : ℚ) : ℚ :=
  (currentPrices.lookup asset).getD entryPrice

/-- A store tracking one active position `a-X` (entry 100, size 2). -/
def exDbX : Db := ⟨[mkActiveRow "a" "X"], [], []⟩

/-- A second address with notifications off and an empty snapshot. -/
def exAddrB : AddressObj := ⟨"b", none, none, some false⟩

/-- C8 counterexample: the price feed carries a fresh price of `0` for
asset `X` (reachable: `allMids` strings pass the truthy guard and
`parseFloat("0") = 0`).  The claim's `lastKnownPrice` is that fresh
price, giving `finalPnl = (0 − 100) × 2 = −200`; the code's `||`
fallback treats the `0` as missing and records `finalPnl = 0` with exit
price 100 in the appended history row. -/
theorem claim_C8_counterexample :
    (fetchPositions true 60000 [("X", 0)] exDbX
        [⟨exAddrB, some []⟩]).db.position_history.map
        (fun h => (h.position_key, h.pnl, h.exit_price))
      = [("a-X", 0, 100)] ∧
    List.lookup "X" [("X", (0 : ℚ))] = some 0 ∧
    (specLastKnownPrice [("X", 0)] "X" 100 - 100) * 2 = -200 ∧
    ((-200 : ℚ) ≠ 0) := by
  refine ⟨?_, by decide, ?_, by norm_num⟩
  · rw [fetchPositions_eq true 60000 [("X", 0)] exDbX
      [⟨exAddrB, some []⟩] (by decide)]
    have hg : gatherSnapshots 60000 (getTrackedPositions exDbX)
        [⟨exAddrB, some []⟩] = ([], [], []) := rfl
    rw [hg]
    have htc : positionsToClose (getTrackedPositions exDbX)
        (([], [], []) : List String × List PositionUpdate × List NotifEvent).1
        = [mkActiveRow "a" "X"] := by decide
    have hru : (runUpserts true 60000 exDbX
        (([], [], []) : List String × List PositionUpdate × List NotifEvent).2.1).1
        = exDbX := rfl
    rw [closePositions_history 60000 [("X", 0)] _ _ ?_ ?_]
    · rw [htc]
      have hpnl : closeFinalPnl [("X", 0)] (mkActiveRow "a" "X") = 0 := by
        norm_num [closeFinalPnl, closeExitPrice, priceOr, mkActiveRow, List.lookup]
      have hexit : closeExitPrice [("X", 0)] (mkActiveRow "a" "X") = 100 := by
        norm_num [closeExitPrice, priceOr, mkActiveRow, List.lookup]
      have hruh : (runUpserts true 60000 exDbX
          (([], [], []) : List String × List PositionUpdate ×
            List NotifEvent).2.1).1.position_history = [] := rfl
      rw [hruh]
      simp only [List.nil_append, List.map_cons, List.map_nil, closeHistoryRow]
      rw [hpnl, hexit]
      decide
    · rw [htc, hru]
      intro tp htp
      rw [List.mem_singleton] at htp
      subst htp
      exact ⟨"a-X", by decide, by decide, by decide⟩
    · rw [htc]
      decide
  · norm_num [specLastKnownPrice, List.lookup]

theorem claim_C8_witness :
    (([⟨exAddrA, some [exRawA]⟩] : List AddressFetch) ≠ [] ∧
      (∀ tp ∈ exDbABC.tracked_positions, tp.position_key ≠ some "") ∧
      (exDbABC.tracked_positions.filterMap (·.position_key)).Nodup) ∧
    (((fetchPositions true 120000 [("B", 110)] exDbABC
        [⟨exAddrA, some [exRawA]⟩]).db.position_history
      = exDbABC.position_history ++
        (fetchPositions true 120000 [("B", 110)] exDbABC
          [⟨exAddrA, some [exRawA]⟩]).closedPositions.map
          (fun tp => closeHistoryRow 120000 (tp.position_key.getD "")
            (closeFinalPnl [("B", 110)] tp) (closeExitPrice [("B", 110)] tp) tp)) ∧
    (∀ tp : TrackedPosition,
      closeFinalPnl [("B", 110)] tp
        = (priceOr [("B", 110)] tp.asset tp.entry_price - tp.entry_price) * tp.size ∧
      (closeHistoryRow 120000 (tp.position_key.getD "")
          (closeFinalPnl [("B", 110)] tp) (closeExitPrice [("B", 110)] tp) tp).pnl
        = closeFinalPnl [("B", 110)] tp ∧
      (closeHistoryRow 120000 (tp.position_key.getD "")
          (closeFinalPnl [("B", 110)] tp) (closeExitPrice [("B", 110)] tp) tp).exit_price
        = priceOr [("B", 110)] tp.asset tp.entry_price ∧
      (closeHistoryRow 120000 (tp.position_key.getD "")
          (closeFinalPnl [("B", 110)] tp) (closeExitPrice [("B", 110)] tp) tp).pnl_percentage
        = if 0 < tp.entry_price
          then closeFinalPnl [("B", 110)] tp / (|tp.size| * tp.entry_price) * 100
          else 0) ∧
    (∀ asset fallback, priceOr [("B", 110)] asset fallback
      = match List.lookup asset [("B", (110 : ℚ))] with
        | some v => if v = 0 then fallback else v
        | none => fallback)) :=
  ⟨⟨by decide, by decide, by decide⟩,
   claim_C8 true 120000 [("B", 110)] exDbABC [⟨exAddrA, some [exRawA]⟩]
     (by decide) (by decide) (by decide)⟩
